import Mathlib

/-!
# Stewardship Atlas — verification of the delta-application and versioning core

A shallow embedding of the Stewardship Atlas dataswale core (layer store,
feature identity assigner, delta queue, annotation resolver, version manager)
together with the web-edit inlet handlers and the shared web utilities that
ship in the repository.

The repository ships the web front end (`templates/js/edit_map.js` and the
unnamed JS bundles) and the design/usage documents; the engine itself (layer
store, annotation resolver, delta queue, version manager, identity assigner)
is described by the specification and the in-repo documents but its body is
not among the shipped sources.  Definitions for those components are
therefore modelled from the spec, as marked in their doc comments; the
web-edit handlers and `parseDegreesFormat` are translated directly from the
shipped JavaScript.
-/

/-- Property values carried in a record's property mapping.  The JSON scalar
fragment used by the annotation machinery: strings, numbers and booleans.
(JSON numbers are modelled as rationals.) -/
inductive PVal where
  | s : String → PVal
  | n : ℚ → PVal
  | b : Bool → PVal
deriving DecidableEq, Repr

/-- Geometry is a coordinate list (covers GeoJSON point / linestring /
polygon-ring coordinate data).  The exact geometric intersection test is
substrate-provided, so the resolver below is parametrized over it. -/
abbrev Geom := List (ℚ × ℚ)

/-- First-occurrence association lookup in a property mapping. -/
def lookupP (k : String) : List (String × PVal) → Option PVal
  | [] => none
  | p :: rest => if p.1 = k then some p.2 else lookupP k rest

/-- Overwriting insert into a property mapping (JS `obj[k] = v`). -/
def setProp : List (String × PVal) → String → PVal → List (String × PVal)
  | [], k, v => [(k, v)]
  | p :: rest, k, v => if p.1 = k then (k, v) :: rest else p :: setProp rest k v

/-- A stored record: geometry plus a property mapping. -/
structure Record where
  geom : Geom
  props : List (String × PVal)
deriving DecidableEq, Repr

/-- Modelled from the spec (§4.2, tech doc `feature_id_field`): a stable
record identity is either the value of a configured identity property or a
deterministic hash of (layer name, normalized geometry coordinates).  The
hash is modelled as the pair itself, so identities collide exactly when the
layer name and the coordinates are bit-identical — the documented trade-off. -/
inductive Identity where
  | fromProp : PVal → Identity
  | derived : String → Geom → Identity
deriving DecidableEq, Repr

/-- Modelled from the spec (§3, §4.1): a layer instance is a mapping from
stable record identity to record, here an association list whose identities
are unique. -/
abbrev Layer := List (Identity × Record)

/-- Modelled from the spec (§4.1): `get(identity) -> record | NotFound`. -/
def getId (l : Layer) (i : Identity) : Option Record :=
  match l with
  | [] => none
  | p :: rest => if p.1 = i then some p.2 else getId rest i

/-- Modelled from the spec (§4.1): `put(identity, record)` is an upsert —
replace in place when the identity is present, append otherwise. -/
def putRec : Layer → Identity → Record → Layer
  | [], i, r => [(i, r)]
  | p :: rest, i, r => if p.1 = i then (i, r) :: rest else p :: putRec rest i r

/-- Modelled from the spec (§4.1): `delete(identity)` fails silently
(no-op) if absent. -/
def eraseId (l : Layer) (i : Identity) : Layer :=
  l.filter (fun p => decide (p.1 ≠ i))

/-- Modelled from the spec (§3): layer configuration — name plus the
optional configured identity field (`feature_id_field`). -/
structure LayerConfig where
  name : String
  identityField : Option String
deriving DecidableEq, Repr

/-- Modelled from the spec (§4.2 Feature Identity Assigner):
`assign(layer_config, record) -> identity`.  A configured identity field is
read directly (`MissingIdentityField` if absent); otherwise the identity is
the deterministic hash over (layer name, normalized geometry coordinates),
modelled as `Identity.derived`. -/
def assignId (cfg : LayerConfig) (geom : Geom) (props : List (String × PVal)) :
    Except String Identity :=
  match cfg.identityField with
  | some f =>
    match lookupP f props with
    | some v => Except.ok (Identity.fromProp v)
    | none => Except.error "MissingIdentityField"
  | none => Except.ok (Identity.derived cfg.name geom)

/-- Modelled from the spec (§3): a delta-record — geometry, a property
mapping carrying the distinguished `annotation_*` scalar fields, plus the
two structured annotation inputs the spec names without fixing a concrete
encoding: the `annotation_property_match` constraints and the optional
replacement geometry an `Annotate` may supply. -/
structure DeltaRec where
  geom : Geom
  props : List (String × PVal)
  propertyMatch : Option (List (String × PVal))
  replacementGeometry : Option Geom
deriving DecidableEq, Repr

/-- The three annotation operations. -/
inductive AnnType where
  | create
  | annotate
  | delete
deriving DecidableEq, Repr

/-- Modelled from the spec (§3): `annotation_type` is read from the property
mapping; `Annotate` is the default when the field is absent. -/
def annType (props : List (String × PVal)) : AnnType :=
  match lookupP "annotation_type" props with
  | some (PVal.s "Create") => AnnType.create
  | some (PVal.s "Delete") => AnnType.delete
  | _ => AnnType.annotate

/-- The two join strategies. -/
inductive JoinKind where
  | simpleGeometryIntersection
  | propertyMatch
deriving DecidableEq, Repr

/-- Modelled from the spec (§3): `annotation_join`, defaulting to
`SimpleGeometryIntersection`. -/
def annJoin (props : List (String × PVal)) : JoinKind :=
  match lookupP "annotation_join" props with
  | some (PVal.s "PropertyMatch") => JoinKind.propertyMatch
  | _ => JoinKind.simpleGeometryIntersection

/-- Modelled from the spec (§3): the logical ordering key
`annotation_timestamp` (0 when absent or non-numeric). -/
def tsOf (d : DeltaRec) : ℚ :=
  match lookupP "annotation_timestamp" d.props with
  | some (PVal.n q) => q
  | _ => 0

/-- Equality match of a property-constraint list against a property
mapping. -/
def propsMatch (pm : List (String × PVal)) (props : List (String × PVal)) : Bool :=
  pm.all (fun p => decide (lookupP p.1 props = some p.2))

/-- Modelled from the spec (§4.4 step 2): does an existing record match a
delta-record's join?  `SimpleGeometryIntersection` uses the substrate's
intersection test, narrowed by `annotation_property_match` when present
(AND semantics); `PropertyMatch` is equality on the configured match
properties. -/
def matchPred (intersects : Geom → Geom → Bool) (d : DeltaRec) (r : Record) : Bool :=
  match annJoin d.props with
  | JoinKind.propertyMatch => propsMatch (d.propertyMatch.getD []) r.props
  | JoinKind.simpleGeometryIntersection =>
    intersects r.geom d.geom &&
      (match d.propertyMatch with
       | some pm => propsMatch pm r.props
       | none => true)

/-- Modelled from the spec (§4.4 step 2-3): the join's match set. -/
def matchSet (intersects : Geom → Geom → Bool) (d : DeltaRec) (l : Layer) :
    List (Identity × Record) :=
  l.filter (fun p => matchPred intersects d p.2)

/-- Modelled from the spec (§4.4 step 3): merge of the delta-record's
properties into an existing record's properties — delta values overwrite on
key collision, keys absent from the delta are preserved. -/
def mergeProps (dps eps : List (String × PVal)) : List (String × PVal) :=
  dps ++ eps.filter (fun p => (lookupP p.1 dps).isNone)

/-- Modelled from the spec (§4.4 step 3, `Annotate` on a matched record):
properties merged, geometry unchanged unless the delta explicitly supplies a
replacement geometry. -/
def annotateRec (d : DeltaRec) (r : Record) : Record :=
  { geom := d.replacementGeometry.getD r.geom,
    props := mergeProps d.props r.props }

/-- Modelled from the spec (§4.4 Annotation Resolver): apply one ordered
delta-record to a layer instance.  `Create` assigns identity and `put`s
unconditionally, evaluating no join (a `MissingIdentityField` failure skips
the record); `Annotate` merges into every matched record (an empty match
set is a no-op); `Delete` removes every matched record (idempotent). -/
def applyDeltaRec (intersects : Geom → Geom → Bool) (cfg : LayerConfig)
    (d : DeltaRec) (l : Layer) : Layer :=
  match annType d.props with
  | AnnType.create =>
    match assignId cfg d.geom d.props with
    | Except.ok i => putRec l i { geom := d.geom, props := d.props }
    | Except.error _ => l
  | AnnType.annotate =>
    l.map (fun p => if matchPred intersects d p.2 then (p.1, annotateRec d p.2) else p)
  | AnnType.delete =>
    l.filter (fun p => !(matchPred intersects d p.2))

/-- Apply an ordered sequence of delta-records to a layer instance. -/
def applyAll (intersects : Geom → Geom → Bool) (cfg : LayerConfig)
    (ds : List DeltaRec) (l : Layer) : Layer :=
  ds.foldl (fun acc d => applyDeltaRec intersects cfg d acc) l

/-- Modelled from the spec (§3): a delta is a batch of delta-records
targeting one layer; a queue's pending state is the arrival-ordered list of
such batches. -/
structure Delta where
  records : List DeltaRec
deriving DecidableEq, Repr

/-- All records of the pending batches of a layer, in arrival order. -/
def allRecords (pending : List Delta) : List DeltaRec :=
  (pending.map Delta.records).flatten

/-- Modelled from the spec (§4.3): `drain` yields the records across all
pending deltas sorted by `annotation_timestamp` ascending, ties broken by
arrival order — a stable sort, here stable insertion sort. -/
def drain (pending : List Delta) : List DeltaRec :=
  List.insertionSort (fun a b => tsOf a ≤ tsOf b) (allRecords pending)

instance : IsTotal DeltaRec (fun a b => tsOf a ≤ tsOf b) :=
  ⟨fun a b => le_total (tsOf a) (tsOf b)⟩

instance : IsTrans DeltaRec (fun a b => tsOf a ≤ tsOf b) :=
  ⟨fun _ _ _ hab hbc => le_trans hab hbc⟩

/-- Modelled from the spec (§3, §4.5): the store — staging layer instances,
the ordered version-identifier list, and the published snapshots. -/
structure Dataswale where
  layers : List (String × Layer)
  versions : List String
  published : List (String × List (String × Layer))
deriving DecidableEq, Repr

/-- Copy every layer's snapshot; `none` as soon as any single copy fails. -/
def copyAll (copy : String → Layer → Option Layer) :
    List (String × Layer) → Option (List (String × Layer))
  | [] => some []
  | p :: rest =>
    match copy p.1 p.2 with
    | none => none
    | some c =>
      match copyAll copy rest with
      | none => none
      | some cs => some ((p.1, c) :: cs)

/-- Modelled from the spec (§4.5 Version Manager): `publish` snapshots every
layer and appends the freshly minted version identifier only after every
layer's copy has succeeded; any single failure aborts the whole publish
(`PublishFailure`). -/
def publishE (copy : String → Layer → Option Layer) (newId : String)
    (s : Dataswale) : Except String Dataswale :=
  match copyAll copy s.layers with
  | none => Except.error "PublishFailure"
  | some snap =>
    Except.ok
      { layers := s.layers,
        versions := s.versions ++ [newId],
        published := s.published ++ [(newId, snap)] }

/-- The store state after a publish attempt: unchanged when the publish
aborted. -/
def publishRun (copy : String → Layer → Option Layer) (newId : String)
    (s : Dataswale) : Dataswale :=
  match publishE copy newId s with
  | Except.ok s' => s'
  | Except.error _ => s

/-! ## Web-edit inlet handlers (translated from the shipped JavaScript) -/

/-- The value a form control contributes when the save button is clicked:
a plain control's DOM `value` string, or — for a `radio` control — the
key/value pairs of `JSON.parse(value)`. -/
inductive ControlValue where
  | plain : String → ControlValue
  | radio : List (String × PVal) → ControlValue
deriving DecidableEq, Repr

/-- One entry of `EDIT_CONFIG.controls` together with its current DOM
value. -/
structure Control where
  name : String
  value : ControlValue
deriving DecidableEq, Repr

/-- The web-edit page configuration (`EDIT_CONFIG`): the single layer the
page edits, the action, and the configured controls. -/
structure EditConfig where
  layerName : String
  action : String
  controls : List Control
deriving DecidableEq, Repr

/-- The delta batch object the handlers build and POST
(`{type, layer, action, features}`). -/
structure Batch where
  ftype : String
  layer : String
  action : String
  features : List Record
deriving DecidableEq, Repr

/-- An uploaded GeoJSON file as parsed by the upload handler, before the
handler patches it: it may name its own layer and action. -/
structure RawGeojson where
  ftype : String
  layer : Option String
  action : Option String
  features : List Record
deriving DecidableEq, Repr

/-- One control's property assignment in the save handler's `forEach`:
`feature.properties[control.name] = value`, or — for a radio control —
`feature.properties[key] = values[key]` for each parsed key. -/
def applyControl (f : Record) (c : Control) : Record :=
  match c.value with
  | ControlValue.plain v => { f with props := setProp f.props c.name (PVal.s v) }
  | ControlValue.radio kvs =>
    { f with props := kvs.foldl (fun ps kv => setProp ps kv.1 kv.2) f.props }

/-- The save handler's per-feature property stamping (the `forEach` over
`EDIT_CONFIG.controls`). -/
def applyControls (cfg : EditConfig) (f : Record) : Record :=
  cfg.controls.foldl applyControl f

/-- Every property key a control can write. -/
def controlKeys (cs : List Control) : List String :=
  cs.flatMap (fun c =>
    match c.value with
    | ControlValue.plain _ => [c.name]
    | ControlValue.radio kvs => kvs.map Prod.fst)

/-- The GeoJSON object the save handler builds: control values stamped onto
every drawn feature, `layer` set to the page's single configured layer name,
`action` from the page config. -/
def buildSaveBatch (cfg : EditConfig) (features : List Record) : Batch :=
  { ftype := "FeatureCollection",
    layer := cfg.layerName,
    action := cfg.action,
    features := features.map (applyControls cfg) }

/-- The upload handler's patching of a parsed file:
`geojson.layer = EDIT_CONFIG.layerName; geojson.action = EDIT_CONFIG.action;`
— the file's own layer and action are overwritten, its features are passed
through unmodified. -/
def buildUploadBatch (cfg : EditConfig) (g : RawGeojson) : Batch :=
  { ftype := g.ftype,
    layer := cfg.layerName,
    action := cfg.action,
    features := g.features }

/-- The result of one click of the save button: the list of POST payloads
sent, and the index of the request whose outcome is reported to the user. -/
structure SaveOutcome where
  payloads : List Batch
  reported : Option Nat
deriving DecidableEq, Repr

/-- The save-button click handler: an early error return when nothing was
drawn; otherwise the control values are stamped onto the features, one
batch object is built, and the `for(let i = 0; i < features.length; i++)`
loop sends that same batch once per feature.  `onreadystatechange` is
assigned after the loop to the function-scoped `var xmlhttp`, i.e. to the
last request created, so only the last request's outcome is reported. -/
def savePost (cfg : EditConfig) (features : List Record) : SaveOutcome :=
  if features.isEmpty then
    { payloads := [], reported := none }
  else
    let geojson := buildSaveBatch cfg features
    { payloads := (List.range features.length).map (fun _ => geojson),
      reported := some (features.length - 1) }

/-- Does a batch carry a pre-assigned record identity for a layer whose
configured identity field is `field`? -/
def hasIdentityProp (field : String) (b : Batch) : Bool :=
  b.features.any (fun f => (lookupP field f.props).isSome)

/-! ## `parseDegreesFormat` (translated from the shared web utilities)

The JavaScript function tries, in order: the degrees/minutes/seconds
pattern, `JSON.parse` plus a truthiness check on `latitude`/`longitude`,
the Google-Maps `@lat,lng` pattern, and the plain `lat, lng` pattern,
returning `null` when all fail.  The regular expressions involved need no
backtracking (each `+` repetition is followed by a character outside its
class), so they are modelled by maximal-munch scanners, with the unanchored
`match` modelled by trying every start position left to right.  Numbers are
modelled as rationals. -/

/-- JS numbers, modelled as exact fractions.  The representation is an
unreduced numerator/denominator pair so that every arithmetic step is plain
integer arithmetic; `Frac.val` gives the rational value. -/
structure Frac where
  num : ℤ
  den : ℕ
deriving DecidableEq, Repr

/-- The rational value of a fraction. -/
def Frac.val (f : Frac) : ℚ := (f.num : ℚ) / (f.den : ℚ)

/-- A whole number as a fraction. -/
def Frac.ofNat (n : ℕ) : Frac := ⟨(n : ℤ), 1⟩

/-- Fraction addition (no reduction). -/
def Frac.add (a b : Frac) : Frac :=
  ⟨a.num * (b.den : ℤ) + b.num * (a.den : ℤ), a.den * b.den⟩

/-- Division of a fraction by a whole number (no reduction). -/
def Frac.divNat (a : Frac) (k : ℕ) : Frac := ⟨a.num, a.den * k⟩

/-- Fraction negation. -/
def Frac.neg (a : Frac) : Frac := ⟨-a.num, a.den⟩

/-- JS truthiness of a number: `0` (and `-0`) is falsy, every other value
truthy. -/
def Frac.truthy (f : Frac) : Bool := decide (f.num ≠ 0)

/-- A parsed JSON member value, in the scalar fragment the annotation
inputs use: strings (escape-free), numbers, booleans and `null`.  Nested
objects and arrays are outside the modelled fragment. -/
inductive JValue where
  | num : Frac → JValue
  | str : String → JValue
  | boolean : Bool → JValue
  | null : JValue
deriving DecidableEq, Repr

/-- JS truthiness of a parsed member value: `0`, the empty string, `false`
and `null` are falsy; every other scalar is truthy. -/
def JValue.truthy : JValue → Bool
  | JValue.num f => f.truthy
  | JValue.str s => !s.isEmpty
  | JValue.boolean b => b
  | JValue.null => false

/-- JS `\s` on the whitespace characters the inputs at issue can contain. -/
def isWsChar (c : Char) : Bool :=
  c = ' ' || c = '\t' || c = '\n' || c = '\r'

/-- JS `\d`. -/
def isDigitChar (c : Char) : Bool :=
  '0' ≤ c && c ≤ '9'

/-- JS `String.prototype.trim`. -/
def trimChars (l : List Char) : List Char :=
  ((l.dropWhile isWsChar).reverse.dropWhile isWsChar).reverse

/-- Maximal munch of `\d+` (possibly empty): the digit run and the rest. -/
def takeDigits : List Char → List Char × List Char
  | [] => ([], [])
  | c :: rest =>
    if isDigitChar c then
      let p := takeDigits rest
      (c :: p.1, p.2)
    else ([], c :: rest)

/-- Numeric value of a digit character. -/
def digitVal (c : Char) : ℕ := c.toNat - '0'.toNat

/-- JS `parseInt` on a digit run. -/
def digitsToNat (ds : List Char) : ℕ :=
  ds.foldl (fun acc c => 10 * acc + digitVal c) 0

/-- `\s*`. -/
def skipWsChars (l : List Char) : List Char := l.dropWhile isWsChar

/-- `\d+X` for a marker character `X`: the parsed integer and the rest. -/
def expectDigitsThen (mark : Char) (l : List Char) : Option (ℕ × List Char) :=
  let p := takeDigits l
  if p.1.isEmpty then none
  else
    match p.2 with
    | c :: rest => if c = mark then some (digitsToNat p.1, rest) else none
    | [] => none

/-- One `(\d+)°(\d+)′(\d+)″` group, converted to decimal degrees
(`parseInt(deg) + parseInt(min)/60 + parseInt(sec)/3600`). -/
def parseDMS (l : List Char) : Option (Frac × List Char) :=
  match expectDigitsThen '°' l with
  | none => none
  | some dp =>
    match expectDigitsThen '′' dp.2 with
    | none => none
    | some mp =>
      match expectDigitsThen '″' mp.2 with
      | none => none
      | some sp =>
        some (((Frac.ofNat dp.1).add ((Frac.ofNat mp.1).divNat 60)).add
                ((Frac.ofNat sp.1).divNat 3600), sp.2)

/-- The degrees pattern
`(\d+)°(\d+)′(\d+)″\s*([NS])\s*(\d+)°(\d+)′(\d+)″\s*([EW])` anchored at the
current position, with the `S`/`W` sign flips applied. -/
def tryDegreesAt (l : List Char) : Option (Frac × Frac) :=
  match parseDMS l with
  | none => none
  | some latp =>
    match skipWsChars latp.2 with
    | [] => none
    | c :: r2 =>
      if c = 'N' || c = 'S' then
        match parseDMS (skipWsChars r2) with
        | none => none
        | some lngp =>
          match skipWsChars lngp.2 with
          | [] => none
          | c2 :: _ =>
            if c2 = 'E' || c2 = 'W' then
              some ((if c = 'S' then latp.1.neg else latp.1),
                    (if c2 = 'W' then lngp.1.neg else lngp.1))
            else none
      else none

/-- Unanchored search for the degrees pattern. -/
def searchDegrees : List Char → Option (Frac × Frac)
  | [] => none
  | c :: rest =>
    match tryDegreesAt (c :: rest) with
    | some v => some v
    | none => searchDegrees rest

/-- Value of a matched `-?\d+\.\d+` group (JS `parseFloat`, as a rational). -/
def decimalValue (neg : Bool) (ip fp : List Char) : Frac :=
  let mag : Frac :=
    (Frac.ofNat (digitsToNat ip)).add ((Frac.ofNat (digitsToNat fp)).divNat (10 ^ fp.length))
  if neg then mag.neg else mag

/-- `-?\d+\.\d+` anchored at the current position. -/
def parseDecimalStrict (l : List Char) : Option (Frac × List Char) :=
  let s : Bool × List Char :=
    match l with
    | c :: rest => if c = '-' then (true, rest) else (false, l)
    | [] => (false, [])
  let p1 := takeDigits s.2
  if p1.1.isEmpty then none
  else
    match p1.2 with
    | c :: r2 =>
      if c = '.' then
        let p2 := takeDigits r2
        if p2.1.isEmpty then none
        else some (decimalValue s.1 p1.1 p2.1, p2.2)
      else none
    | [] => none

/-- The Google-Maps pattern `@(-?\d+\.\d+),(-?\d+\.\d+)` anchored at the
current position. -/
def tryGoogleAt (l : List Char) : Option (Frac × Frac) :=
  match l with
  | c :: r1 =>
    if c = '@' then
      match parseDecimalStrict r1 with
      | none => none
      | some lap =>
        match lap.2 with
        | c2 :: r3 =>
          if c2 = ',' then
            match parseDecimalStrict r3 with
            | none => none
            | some lop => some (lap.1, lop.1)
          else none
        | [] => none
    else none
  | [] => none

/-- Unanchored search for the Google-Maps pattern. -/
def searchGoogle : List Char → Option (Frac × Frac)
  | [] => none
  | c :: rest =>
    match tryGoogleAt (c :: rest) with
    | some v => some v
    | none => searchGoogle rest

/-- The plain pattern `(-?\d+\.\d+)\s*,\s*(-?\d+\.\d+)` anchored at the
current position. -/
def tryCommaAt (l : List Char) : Option (Frac × Frac) :=
  match parseDecimalStrict l with
  | none => none
  | some lap =>
    match skipWsChars lap.2 with
    | c :: r2 =>
      if c = ',' then
        match parseDecimalStrict (skipWsChars r2) with
        | none => none
        | some lop => some (lap.1, lop.1)
      else none
    | [] => none

/-- Unanchored search for the plain comma pattern. -/
def searchComma : List Char → Option (Frac × Frac)
  | [] => none
  | c :: rest =>
    match tryCommaAt (c :: rest) with
    | some v => some v
    | none => searchComma rest

/-- Model of `JSON.parse` on a quoted key (escape-free fragment). -/
def parseJsonString (l : List Char) : Option (String × List Char) :=
  match l with
  | c :: r1 =>
    if c = '"' then
      let p := r1.span (fun c => !(c = '"'))
      match p.2 with
      | _ :: r2 => some (String.mk p.1, r2)
      | [] => none
    else none
  | [] => none

/-- Strip an expected literal character sequence off the input. -/
def stripPrefixChars : List Char → List Char → Option (List Char)
  | [], l => some l
  | k :: ks, c :: rest => if c = k then stripPrefixChars ks rest else none
  | _ :: _, [] => none

/-- The optional `[eE][+-]?\d+` exponent suffix of a JSON number, applied
to the mantissa; when no complete exponent follows, the input is left
untouched (a dangling `e` then fails at the surrounding member separator,
as `JSON.parse` throws on it). -/
def parseExponent (v : Frac) (l : List Char) : Frac × List Char :=
  match l with
  | c :: r1 =>
    if c = 'e' || c = 'E' then
      let s : Bool × List Char :=
        match r1 with
        | c2 :: r2 =>
          if c2 = '-' then (true, r2)
          else if c2 = '+' then (false, r2)
          else (false, r1)
        | [] => (false, r1)
      let p := takeDigits s.2
      if p.1.isEmpty then (v, c :: r1)
      else
        (if s.1 then ⟨v.num, v.den * 10 ^ digitsToNat p.1⟩
         else ⟨v.num * (10 : ℤ) ^ digitsToNat p.1, v.den⟩, p.2)
    else (v, c :: r1)
  | [] => (v, [])

/-- Model of `JSON.parse` on a number:
`-?\d+(\.\d+)?([eE][+-]?\d+)?`. -/
def parseJsonNumber (l : List Char) : Option (Frac × List Char) :=
  let s : Bool × List Char :=
    match l with
    | c :: rest => if c = '-' then (true, rest) else (false, l)
    | [] => (false, [])
  let p1 := takeDigits s.2
  if p1.1.isEmpty then none
  else
    match p1.2 with
    | c :: r2 =>
      if c = '.' then
        let p2 := takeDigits r2
        if p2.1.isEmpty then none
        else some (parseExponent (decimalValue s.1 p1.1 p2.1) p2.2)
      else some (parseExponent (decimalValue s.1 p1.1 []) (c :: r2))
    | [] => some (decimalValue s.1 p1.1 [], [])

/-- Model of `JSON.parse` on a scalar member value, dispatching on the
first character as `JSON.parse` does: a quoted string, the `true`/`false`/
`null` keywords, or a number; anything else is a parse error. -/
def parseJsonValue (l : List Char) : Option (JValue × List Char) :=
  match l with
  | [] => none
  | c :: r1 =>
    if c = '"' then
      match parseJsonString (c :: r1) with
      | some sp => some (JValue.str sp.1, sp.2)
      | none => none
    else
      match stripPrefixChars ['t', 'r', 'u', 'e'] (c :: r1) with
      | some r2 => some (JValue.boolean true, r2)
      | none =>
        match stripPrefixChars ['f', 'a', 'l', 's', 'e'] (c :: r1) with
        | some r2 => some (JValue.boolean false, r2)
        | none =>
          match stripPrefixChars ['n', 'u', 'l', 'l'] (c :: r1) with
          | some r2 => some (JValue.null, r2)
          | none =>
            match parseJsonNumber (c :: r1) with
            | some vp => some (JValue.num vp.1, vp.2)
            | none => none

/-- Model of `JSON.parse` on the members of a flat object with scalar
values, fuel-bounded. -/
def parseMembers : ℕ → List Char → Option (List (String × JValue) × List Char)
  | 0, _ => none
  | fuel + 1, l =>
    match parseJsonString (skipWsChars l) with
    | none => none
    | some kp =>
      match skipWsChars kp.2 with
      | c :: r2 =>
        if c = ':' then
          match parseJsonValue (skipWsChars r2) with
          | none => none
          | some vp =>
            match skipWsChars vp.2 with
            | c2 :: r4 =>
              if c2 = ',' then
                match parseMembers fuel r4 with
                | none => none
                | some mp => some ((kp.1, vp.1) :: mp.1, mp.2)
              else if c2 = '\x7d' then some ([(kp.1, vp.1)], r4)
              else none
            | [] => none
        else none
      | [] => none

/-- Model of `JSON.parse` restricted to a flat object with scalar member
values (escape-free strings, numbers with optional exponent, booleans,
`null`); `none` models a thrown parse error, a non-object result (whose
`latitude` access is then `undefined` and falsy), or an input outside this
fragment (nested objects/arrays, string escapes). -/
def parseJsonObj (l : List Char) : Option (List (String × JValue)) :=
  match skipWsChars l with
  | c :: r1 =>
    if c = '\x7b' then
      match skipWsChars r1 with
      | c2 :: r2 =>
        if c2 = '\x7d' then if (skipWsChars r2).isEmpty then some [] else none
        else
          match parseMembers (l.length + 1) r1 with
          | none => none
          | some mp => if (skipWsChars mp.2).isEmpty then some mp.1 else none
      | [] => none
    else none
  | [] => none

/-- JS property access on the parsed object; on duplicate keys the later
member wins, as in `JSON.parse`. -/
def jLookup (k : String) : List (String × JValue) → Option JValue
  | [] => none
  | p :: rest =>
    match jLookup k rest with
    | some v => some v
    | none => if p.1 = k then some p.2 else none

/-- The two fallback branches after the JSON attempt: the Google-Maps
pattern, then the plain comma pattern. -/
def googleOrComma (t : List Char) : Option (JValue × JValue) :=
  match searchGoogle t with
  | some v => some (JValue.num v.1, JValue.num v.2)
  | none =>
    match searchComma t with
    | some v => some (JValue.num v.1, JValue.num v.2)
    | none => none

/-- `parseDegreesFormat` from the shared web utilities: degrees pattern,
then JSON with the `latitude && longitude` truthiness check (a numeric `0`
is falsy, so the branch falls through), then the Google-Maps pattern, then
the plain comma pattern; `none` models the final `return null`. -/
def parseDegreesFormat (input : List Char) : Option (JValue × JValue) :=
  let t := trimChars input
  match searchDegrees t with
  | some v => some (JValue.num v.1, JValue.num v.2)
  | none =>
    match parseJsonObj t with
    | some obj =>
      match jLookup "latitude" obj, jLookup "longitude" obj with
      | some la, some lo =>
        if la.truthy && lo.truthy then some (la, lo) else googleOrComma t
      | _, _ => googleOrComma t
    | none => googleOrComma t

/-- `parseDegreesFormat` on a `String` input. -/
def parseDegreesFormatS (s : String) : Option (JValue × JValue) :=
  parseDegreesFormat s.toList

/-! ## Serialized flat JSON objects — the JSON-form inputs at issue -/

/-- A decimal numeral literal: sign, integer digits, fractional digits. -/
structure NumLit where
  neg : Bool
  ip : List ℕ
  fp : List ℕ
deriving DecidableEq, Repr

/-- Well-formed numeral: nonempty integer part, digits below ten. -/
def NumLit.Wf (x : NumLit) : Prop :=
  x.ip ≠ [] ∧ (∀ d ∈ x.ip, d < 10) ∧ (∀ d ∈ x.fp, d < 10)

/-- The character of a digit. -/
def digitChar (d : ℕ) : Char := Char.ofNat ('0'.toNat + d)

/-- The characters of a digit list. -/
def numDigitsChars (ds : List ℕ) : List Char := ds.map digitChar

/-- The serialized numeral. -/
def serNum (x : NumLit) : List Char :=
  (if x.neg then ['-'] else []) ++ numDigitsChars x.ip ++
    (if x.fp.isEmpty then [] else '.' :: numDigitsChars x.fp)

/-- The numeric value of a numeral, as the number parser computes it. -/
def numVal (x : NumLit) : Frac :=
  decimalValue x.neg (numDigitsChars x.ip) (numDigitsChars x.fp)

/-- A serializable member value: a numeral or a string literal. -/
inductive SVal where
  | num : NumLit → SVal
  | str : String → SVal
deriving DecidableEq, Repr

/-- Well-formed serializable value: a well-formed numeral, or a string
whose characters contain no quote (the escape-free fragment) and no degree
sign (forced by the degrees pattern running first). -/
def SVal.Wf : SVal → Prop
  | SVal.num x => x.Wf
  | SVal.str s => ∀ c ∈ s.toList, ¬ c = '"' ∧ ¬ c = '°'

/-- The serialized member value. -/
def serSVal : SVal → List Char
  | SVal.num x => serNum x
  | SVal.str s => '"' :: (s.toList ++ ['"'])

/-- The parsed form of a serializable value. -/
def svalJ : SVal → JValue
  | SVal.num x => JValue.num (numVal x)
  | SVal.str s => JValue.str s

/-- A serialized member: `"key": value`. -/
def serMember (k : String) (v : SVal) : List Char :=
  '"' :: (k.toList ++ '"' :: ':' :: ' ' :: serSVal v)

/-- Serialized members joined by a comma and a space. -/
def serMembers : List (String × SVal) → List Char
  | [] => []
  | m :: rest =>
    serMember m.1 m.2 ++ (if rest.isEmpty then [] else ',' :: ' ' :: serMembers rest)

/-- A serialized flat JSON object with scalar members. -/
def serObj (ms : List (String × SVal)) : List Char :=
  '\x7b' :: (serMembers ms ++ ['\x7d'])

/-! ## Concrete fixtures used by witnesses and counterexamples -/

/-- A substrate intersection test under which everything intersects. -/
def intersectsTrue : Geom → Geom → Bool := fun _ _ => true

/-- A substrate intersection test under which nothing intersects. -/
def intersectsFalse : Geom → Geom → Bool := fun _ _ => false

/-- The `roads` layer configuration with no configured identity field. -/
def roadsCfg : LayerConfig := ⟨"roads", none⟩

/-- The geometry of the `R1` linestring. -/
def mainGeom : Geom := [((0 : ℚ), (0 : ℚ)), ((1 : ℚ), (1 : ℚ))]

/-- The `R1` record, named `Main St`. -/
def mainRec : Record := ⟨mainGeom, [("name", PVal.s "Main St")]⟩

/-- The derived identity of `R1`. -/
def mainId : Identity := Identity.derived "roads" mainGeom

/-- The `roads` layer instance holding exactly `R1`. -/
def roadsLayer : Layer := [(mainId, mainRec)]

/-- An `Annotate` delta-record (default `annotation_type`) renaming the
matched road to `Main Street`. -/
def annDelta : DeltaRec := ⟨[((0 : ℚ), (0 : ℚ))], [("name", PVal.s "Main Street")], none, none⟩

/-- A `Create` delta-record whose geometry is bit-identical to `R1`'s. -/
def createDelta : DeltaRec :=
  ⟨mainGeom, [("annotation_type", PVal.s "Create"), ("name", PVal.s "Spur")], none, none⟩

/-- A `Create` delta-record with fresh geometry. -/
def freshCreate : DeltaRec :=
  ⟨[((2 : ℚ), (2 : ℚ))], [("annotation_type", PVal.s "Create"), ("name", PVal.s "New Rd")], none, none⟩

/-- A `Delete` delta-record joining by geometry intersection. -/
def delDelta : DeltaRec := ⟨[((0 : ℚ), (0 : ℚ))], [("annotation_type", PVal.s "Delete")], none, none⟩

/-! ## Helper lemmas -/

theorem getId_none_eraseId (l : Layer) (i : Identity) (h : getId l i = none) :
    eraseId l i = l := by
  induction l with
  | nil => rfl
  | cons p rest ih =>
    by_cases hp : p.1 = i
    · simp [getId, hp] at h
    · simp only [getId, hp, if_false] at h
      simp [eraseId, List.filter_cons, hp] at ih ⊢
      exact ih h

theorem getId_none_putRec (l : Layer) (i : Identity) (r : Record) (h : getId l i = none) :
    putRec l i r = l ++ [(i, r)] := by
  induction l with
  | nil => rfl
  | cons p rest ih =>
    by_cases hp : p.1 = i
    · simp [getId, hp] at h
    · simp only [getId, hp, if_false] at h
      simp [putRec, hp, ih h]

theorem lookupP_append (k : String) (a b : List (String × PVal)) :
    lookupP k (a ++ b) =
      if (lookupP k a).isSome then lookupP k a else lookupP k b := by
  induction a with
  | nil => simp [lookupP]
  | cons p rest ih =>
    by_cases hp : p.1 = k <;> simp [lookupP, hp, ih]

theorem lookupP_filter_absent (k : String) (dps eps : List (String × PVal))
    (h : lookupP k dps = none) :
    lookupP k (eps.filter (fun p => (lookupP p.1 dps).isNone)) = lookupP k eps := by
  induction eps with
  | nil => rfl
  | cons p rest ih =>
    by_cases hp : p.1 = k
    · have : (lookupP p.1 dps).isNone = true := by rw [hp, h]; rfl
      simp [List.filter_cons, this, lookupP, hp, h]
    · cases hcond : (lookupP p.1 dps).isNone with
      | true => simp [List.filter_cons, hcond, lookupP, hp, ih]
      | false => simp [List.filter_cons, hcond, lookupP, hp, ih]

theorem lookupP_mergeProps (k : String) (dps eps : List (String × PVal)) :
    lookupP k (mergeProps dps eps) =
      if (lookupP k dps).isSome then lookupP k dps else lookupP k eps := by
  rw [mergeProps, lookupP_append]
  cases h : lookupP k dps with
  | some v => simp
  | none => simp [lookupP_filter_absent k dps eps h]

/-! ## C1 — `Annotate` merge semantics -/

/-- C1: for every `Annotate` delta-record whose join yields one or more
matches and which supplies no replacement geometry, application keeps the
identity list unchanged (so no record is created), merges the delta's
properties into each matched record with delta values overwriting on key
collision and keys absent from the delta preserved, leaves each matched
record's geometry unchanged, and leaves unmatched records untouched. -/
theorem annotate_merges_into_matches
    (intersects : Geom → Geom → Bool) (cfg : LayerConfig) (d : DeltaRec) (l : Layer)
    (hty : annType d.props = AnnType.annotate)
    (hrepl : d.replacementGeometry = none)
    (_hne : matchSet intersects d l ≠ []) :
    ((applyDeltaRec intersects cfg d l).map Prod.fst = l.map Prod.fst) ∧
    (applyDeltaRec intersects cfg d l).length = l.length ∧
    (∀ p ∈ l, matchPred intersects d p.2 = true →
      (p.1, Record.mk p.2.geom (mergeProps d.props p.2.props)) ∈ applyDeltaRec intersects cfg d l) ∧
    (∀ p ∈ l, matchPred intersects d p.2 = false → p ∈ applyDeltaRec intersects cfg d l) ∧
    (∀ (k : String) (dps eps : List (String × PVal)),
      lookupP k (mergeProps dps eps) =
        if (lookupP k dps).isSome then lookupP k dps else lookupP k eps) := by
  have happ : applyDeltaRec intersects cfg d l =
      l.map (fun p => if matchPred intersects d p.2 then (p.1, annotateRec d p.2) else p) := by
    simp [applyDeltaRec, hty]
  refine ⟨?_, ?_, ?_, ?_, ?_⟩
  · rw [happ, List.map_map]
    apply List.map_eq_map_iff.mpr
    intro p _
    simp only [Function.comp_apply]
    split <;> rfl
  · rw [happ, List.length_map]
  · intro p hp hm
    rw [happ]
    exact List.mem_map.mpr ⟨p, hp, by simp [hm, annotateRec, hrepl]⟩
  · intro p hp hm
    rw [happ]
    exact List.mem_map.mpr ⟨p, hp, by simp [hm]⟩
  · exact fun k dps eps => lookupP_mergeProps k dps eps

/-- C1 witness: the spec's concrete join-correctness scenario — one
linestring `R1` named `Main St`, an intersecting `Annotate` delta with
`name: Main Street`. -/
theorem annotate_merges_into_matches_witness :
    matchSet intersectsTrue annDelta roadsLayer ≠ [] ∧
    (applyDeltaRec intersectsTrue roadsCfg annDelta roadsLayer).map Prod.fst =
      roadsLayer.map Prod.fst ∧
    (mainId, Record.mk mainRec.geom (mergeProps annDelta.props mainRec.props)) ∈
      applyDeltaRec intersectsTrue roadsCfg annDelta roadsLayer := by
  have h := annotate_merges_into_matches intersectsTrue roadsCfg annDelta roadsLayer
    (by decide) rfl (by decide)
  exact ⟨by decide, h.1, h.2.2.1 (mainId, mainRec) (by decide) (by decide)⟩

/-! ## C2 — `Create` bypasses the join -/

/-- C2 counterexample: a `Create` delta-record whose geometry is
bit-identical to the pre-existing record `R1`'s derives the same identity,
so the unconditional `put` upserts over `R1`: the layer still has exactly
one record and `R1` is gone — no new record was inserted and a pre-existing
record was changed. -/
theorem create_overwrite_counterexample :
    annType createDelta.props = AnnType.create ∧
    (applyDeltaRec intersectsTrue roadsCfg createDelta roadsLayer).length =
      roadsLayer.length ∧
    (mainId, mainRec) ∉ applyDeltaRec intersectsTrue roadsCfg createDelta roadsLayer := by
  decide

/-- C2 (amended): a `Create` delta-record is applied by assigning an
identity and `put`ting unconditionally — no join is evaluated (the result
does not depend on the intersection test) — and when the assigned identity
is not already present in the layer instance, the new record is appended
and every pre-existing record is left completely unchanged; when the
assigned identity collides with an existing record's identity the `put`
upserts over that record (the documented hash-collision trade-off). -/
theorem create_put_semantics
    (intersects1 intersects2 : Geom → Geom → Bool) (cfg : LayerConfig)
    (d : DeltaRec) (l : Layer) (i : Identity)
    (hty : annType d.props = AnnType.create)
    (hid : assignId cfg d.geom d.props = Except.ok i) :
    applyDeltaRec intersects1 cfg d l = putRec l i (Record.mk d.geom d.props) ∧
    applyDeltaRec intersects1 cfg d l = applyDeltaRec intersects2 cfg d l ∧
    (getId l i = none →
      applyDeltaRec intersects1 cfg d l = l ++ [(i, Record.mk d.geom d.props)]) := by
  have happ : ∀ intersects : Geom → Geom → Bool,
      applyDeltaRec intersects cfg d l = putRec l i (Record.mk d.geom d.props) := by
    intro intersects
    simp [applyDeltaRec, hty, hid]
  refine ⟨happ intersects1, by rw [happ intersects1, happ intersects2], ?_⟩
  intro habs
  rw [happ intersects1, getId_none_putRec l i _ habs]

/-- C2 witness: a `Create` delta with fresh geometry against the `roads`
layer appends a second, distinct record, leaves `R1` untouched, and its
outcome is independent of the intersection test. -/
theorem create_put_semantics_witness :
    getId roadsLayer (Identity.derived "roads" freshCreate.geom) = none ∧
    applyDeltaRec intersectsTrue roadsCfg freshCreate roadsLayer =
      roadsLayer ++
        [(Identity.derived "roads" freshCreate.geom,
          Record.mk freshCreate.geom freshCreate.props)] ∧
    applyDeltaRec intersectsTrue roadsCfg freshCreate roadsLayer =
      applyDeltaRec intersectsFalse roadsCfg freshCreate roadsLayer := by
  have h := create_put_semantics intersectsTrue intersectsFalse roadsCfg freshCreate roadsLayer
    (Identity.derived "roads" freshCreate.geom) (by decide) rfl
  exact ⟨by decide, h.2.2 (by decide), h.2.1⟩

/-! ## C3 — deletion is idempotent -/

/-- C3: the layer store's `delete` on an absent identity is a no-op; a
`Delete` delta-record with an empty match set is a no-op; after one
application of a `Delete` delta-record zero records match it, and applying
the same `Delete` twice yields exactly the state of applying it once. -/
theorem delete_idempotent
    (intersects : Geom → Geom → Bool) (cfg : LayerConfig) (d : DeltaRec)
    (l : Layer) (i : Identity)
    (hty : annType d.props = AnnType.delete) :
    (getId l i = none → eraseId l i = l) ∧
    (matchSet intersects d l = [] → applyDeltaRec intersects cfg d l = l) ∧
    matchSet intersects d (applyDeltaRec intersects cfg d l) = [] ∧
    applyDeltaRec intersects cfg d (applyDeltaRec intersects cfg d l) =
      applyDeltaRec intersects cfg d l := by
  have happ : ∀ l' : Layer, applyDeltaRec intersects cfg d l' =
      l'.filter (fun p => !(matchPred intersects d p.2)) := by
    intro l'
    simp [applyDeltaRec, hty]
  refine ⟨getId_none_eraseId l i, ?_, ?_, ?_⟩
  · intro hempty
    rw [happ]
    apply List.filter_eq_self.mpr
    intro p hp
    have := List.filter_eq_nil_iff.mp hempty p hp
    simp_all
  · rw [happ, matchSet, List.filter_filter]
    apply List.filter_eq_nil_iff.mpr
    intro p _
    cases matchPred intersects d p.2 <;> simp
  · rw [happ, happ, List.filter_filter]
    apply List.filter_congr
    intro p _
    cases matchPred intersects d p.2 <;> simp

/-- C3 witness: `delete` of an absent identity leaves `roads` unchanged;
one `Delete` empties the match set, and a second application changes
nothing. -/
theorem delete_idempotent_witness :
    eraseId roadsLayer (Identity.fromProp (PVal.s "absent")) = roadsLayer ∧
    matchSet intersectsTrue delDelta
      (applyDeltaRec intersectsTrue roadsCfg delDelta roadsLayer) = [] ∧
    applyDeltaRec intersectsTrue roadsCfg delDelta
        (applyDeltaRec intersectsTrue roadsCfg delDelta roadsLayer) =
      applyDeltaRec intersectsTrue roadsCfg delDelta roadsLayer := by
  have h := delete_idempotent intersectsTrue roadsCfg delDelta roadsLayer
    (Identity.fromProp (PVal.s "absent")) (by decide)
  exact ⟨h.1 (by decide), h.2.2.1, h.2.2.2⟩

/-! ## C5 — derived identities are deterministic -/

/-- C5: for a layer configuration with no identity field, the assigned
identity is the pure function `Identity.derived` of the layer name and the
geometry coordinates; in particular two derivations for bit-identical
geometry and layer yield the same identity whatever the records'
properties. -/
theorem derived_identity_deterministic
    (cfg : LayerConfig) (h : cfg.identityField = none)
    (g : Geom) (ps1 ps2 : List (String × PVal)) :
    assignId cfg g ps1 = Except.ok (Identity.derived cfg.name g) ∧
    assignId cfg g ps1 = assignId cfg g ps2 := by
  simp [assignId, h]

/-- C5 witness: deriving the identity for `R1`'s geometry in `roads` twice,
under different property mappings, yields the same value. -/
theorem derived_identity_deterministic_witness :
    assignId roadsCfg mainGeom [] = Except.ok (Identity.derived "roads" mainGeom) ∧
    assignId roadsCfg mainGeom [] =
      assignId roadsCfg mainGeom [("name", PVal.s "Main St")] :=
  derived_identity_deterministic roadsCfg rfl mainGeom [] [("name", PVal.s "Main St")]

/-! ## C7 — missing `annotation_type` means `Annotate` -/

/-- C7: a delta-record whose property mapping does not specify
`annotation_type` is treated as `Annotate`: the layer's identity list is
preserved (no record is created, unlike `Create`), an empty match set is a
no-op, and every matched record is merged into. -/
theorem missing_type_defaults_to_annotate
    (intersects : Geom → Geom → Bool) (cfg : LayerConfig) (d : DeltaRec) (l : Layer)
    (hty : lookupP "annotation_type" d.props = none) :
    annType d.props = AnnType.annotate ∧
    (applyDeltaRec intersects cfg d l).map Prod.fst = l.map Prod.fst ∧
    (matchSet intersects d l = [] → applyDeltaRec intersects cfg d l = l) ∧
    (∀ p ∈ l, matchPred intersects d p.2 = true →
      (p.1, annotateRec d p.2) ∈ applyDeltaRec intersects cfg d l) := by
  have hann : annType d.props = AnnType.annotate := by simp [annType, hty]
  have happ : applyDeltaRec intersects cfg d l =
      l.map (fun p => if matchPred intersects d p.2 then (p.1, annotateRec d p.2) else p) := by
    simp [applyDeltaRec, hann]
  refine ⟨hann, ?_, ?_, ?_⟩
  · rw [happ, List.map_map]
    apply List.map_eq_map_iff.mpr
    intro p _
    simp only [Function.comp_apply]
    split <;> rfl
  · intro hempty
    rw [happ]
    have hall := List.filter_eq_nil_iff.mp hempty
    have : ∀ p ∈ l, (if matchPred intersects d p.2 then (p.1, annotateRec d p.2) else p) = p := by
      intro p hp
      have := hall p hp
      simp_all
    rw [List.map_eq_map_iff.mpr this]
    simp
  · intro p hp hm
    rw [happ]
    exact List.mem_map.mpr ⟨p, hp, by simp [hm]⟩

/-- C7 witness: the `Main Street` delta carries no `annotation_type`, is
treated as `Annotate`, creates no record, and merges into the matched
`R1`. -/
theorem missing_type_defaults_to_annotate_witness :
    lookupP "annotation_type" annDelta.props = none ∧
    annType annDelta.props = AnnType.annotate ∧
    (applyDeltaRec intersectsTrue roadsCfg annDelta roadsLayer).map Prod.fst =
      roadsLayer.map Prod.fst ∧
    (mainId, annotateRec annDelta mainRec) ∈
      applyDeltaRec intersectsTrue roadsCfg annDelta roadsLayer := by
  have h := missing_type_defaults_to_annotate intersectsTrue roadsCfg annDelta roadsLayer
    (by decide)
  exact ⟨by decide, h.1, h.2.1, h.2.2.2 (mainId, mainRec) (by decide) (by decide)⟩

/-! ## C4 — publish is all-or-nothing -/

theorem copyAll_none_of_fail (copy : String → Layer → Option Layer)
    (ls : List (String × Layer)) (p : String × Layer)
    (hp : p ∈ ls) (hfail : copy p.1 p.2 = none) :
    copyAll copy ls = none := by
  induction ls with
  | nil => cases hp
  | cons q rest ih =>
    rcases List.mem_cons.mp hp with h | h
    · subst h
      simp [copyAll, hfail]
    · cases hq : copy q.1 q.2 with
      | none => simp [copyAll, hq]
      | some c => simp [copyAll, hq, ih h]

theorem copyAll_isSome_of_all (copy : String → Layer → Option Layer)
    (ls : List (String × Layer)) (h : ∀ p ∈ ls, (copy p.1 p.2).isSome) :
    (copyAll copy ls).isSome := by
  induction ls with
  | nil => simp [copyAll]
  | cons q rest ih =>
    cases hq : copy q.1 q.2 with
    | none =>
      have := h q (List.mem_cons_self q rest)
      simp [hq] at this
    | some c =>
      have hrest := ih (fun p hp => h p (List.mem_cons_of_mem q hp))
      cases hr : copyAll copy rest with
      | none => simp [hr] at hrest
      | some cs => simp [copyAll, hq, hr]

/-- C4: when every layer's snapshot copy succeeds, `publish` appends the
freshly minted version identifier to the store's version list (and staging
is untouched); when the copy of any single layer fails, the whole publish
aborts with `PublishFailure` and the store — staging state, version list
and published snapshots — is exactly unchanged, so no new version
identifier or version directory exists. -/
theorem publish_all_or_nothing (copy : String → Layer → Option Layer)
    (newId : String) (s : Dataswale) :
    ((∀ p ∈ s.layers, (copy p.1 p.2).isSome) →
      (publishRun copy newId s).versions = s.versions ++ [newId] ∧
      (publishRun copy newId s).layers = s.layers) ∧
    ((∃ p ∈ s.layers, copy p.1 p.2 = none) →
      publishE copy newId s = Except.error "PublishFailure" ∧
      publishRun copy newId s = s) := by
  constructor
  · intro hall
    have hsome := copyAll_isSome_of_all copy s.layers hall
    cases hc : copyAll copy s.layers with
    | none => simp [hc] at hsome
    | some snap => simp [publishRun, publishE, hc]
  · rintro ⟨p, hp, hfail⟩
    have hc := copyAll_none_of_fail copy s.layers p hp hfail
    simp [publishRun, publishE, hc]

/-- A snapshot copy that fails exactly on layer `b`. -/
def copyFailSecond : String → Layer → Option Layer :=
  fun n l => if n = "b" then none else some l

/-- A store with three layers and one already-published version. -/
def swale3 : Dataswale :=
  ⟨[("a", roadsLayer), ("b", roadsLayer), ("c", roadsLayer)], ["v0"], []⟩

/-- C4 witness: with three layers and a simulated failure while copying the
second, the publish aborts and the store — version list included — is
unchanged. -/
theorem publish_all_or_nothing_witness :
    publishE copyFailSecond "v1" swale3 = Except.error "PublishFailure" ∧
    publishRun copyFailSecond "v1" swale3 = swale3 :=
  (publish_all_or_nothing copyFailSecond "v1" swale3).2
    ⟨("b", roadsLayer), by decide, rfl⟩

/-! ## C9 — one POST per drawn feature, each with the whole collection -/

/-- C9: a save of `N ≥ 1` drawn features sends `N` POST requests, each
carrying the identical complete `FeatureCollection` of all `N` features —
so a batch with more than one feature is submitted more than once — and the
request whose outcome is reported to the user is the last one. -/
theorem save_posts_once_per_feature (cfg : EditConfig) (fs : List Record)
    (h : fs ≠ []) :
    (savePost cfg fs).payloads.length = fs.length ∧
    (∀ b ∈ (savePost cfg fs).payloads, b = buildSaveBatch cfg fs) ∧
    (∀ b ∈ (savePost cfg fs).payloads, b.features.length = fs.length) ∧
    (savePost cfg fs).reported = some (fs.length - 1) ∧
    (2 ≤ fs.length → 2 ≤ (savePost cfg fs).payloads.length) := by
  have hne : fs.isEmpty = false := by
    cases fs with
    | nil => exact absurd rfl h
    | cons a l => rfl
  have hmem : ∀ b ∈ (savePost cfg fs).payloads, b = buildSaveBatch cfg fs := by
    intro b hb
    simp only [savePost, hne, Bool.false_eq_true, if_false] at hb
    rcases List.mem_map.mp hb with ⟨i, _, rfl⟩
    rfl
  refine ⟨?_, hmem, ?_, ?_, ?_⟩
  · simp [savePost, hne]
  · intro b hb
    rw [hmem b hb]
    simp [buildSaveBatch]
  · simp [savePost, hne]
  · intro h2
    simp [savePost, hne]
    omega

/-- The edit page configuration used by the handler witnesses. -/
def editCfg : EditConfig := ⟨"roads", "annotate", [⟨"name", ControlValue.plain "Main St"⟩]⟩

/-- Two drawn features. -/
def drawnTwo : List Record := [⟨[((0 : ℚ), (0 : ℚ))], []⟩, ⟨[((1 : ℚ), (1 : ℚ))], []⟩]

/-- C9 witness: saving two drawn features sends two POSTs, both carrying
both features, and only the second request's outcome is reported. -/
theorem save_posts_once_per_feature_witness :
    (savePost editCfg drawnTwo).payloads.length = 2 ∧
    (∀ b ∈ (savePost editCfg drawnTwo).payloads, b = buildSaveBatch editCfg drawnTwo) ∧
    (savePost editCfg drawnTwo).reported = some 1 := by
  have h := save_posts_once_per_feature editCfg drawnTwo (by decide)
  exact ⟨h.1, h.2.1, h.2.2.2.1⟩

/-! ## C8 — web-edit batches: layer discipline and pass-through -/

theorem lookupP_setProp (k k' : String) (v : PVal) (ps : List (String × PVal)) :
    lookupP k (setProp ps k' v) =
      if k' = k then some v else lookupP k ps := by
  induction ps with
  | nil => simp [setProp, lookupP]
  | cons p rest ih =>
    by_cases hpk : p.1 = k'
    · by_cases hk : k' = k
      · simp [setProp, hpk, lookupP, hk]
      · have : ¬ p.1 = k := by rw [hpk]; exact hk
        simp [setProp, hpk, lookupP, hk, this]
    · by_cases hpkk : p.1 = k
      · have h1 : ¬ k' = k := by
          intro e
          exact hpk (by rw [hpkk, e])
        have h2 : ¬ k = k' := fun e => h1 e.symm
        simp [setProp, hpk, lookupP, hpkk, h1, h2]
      · simp [setProp, hpk, lookupP, hpkk, ih]

theorem lookupP_foldl_setProp (k : String) (kvs : List (String × PVal))
    (ps : List (String × PVal)) (h : k ∉ kvs.map Prod.fst) :
    lookupP k (kvs.foldl (fun acc kv => setProp acc kv.1 kv.2) ps) = lookupP k ps := by
  induction kvs generalizing ps with
  | nil => rfl
  | cons kv rest ih =>
    simp only [List.map_cons, List.mem_cons] at h
    push_neg at h
    rw [List.foldl_cons, ih (setProp ps kv.1 kv.2) h.2, lookupP_setProp]
    have : ¬ kv.1 = k := fun e => h.1 e.symm
    simp [this]

theorem lookupP_applyControl (f : Record) (c : Control) (k : String)
    (h : k ∉ controlKeys [c]) :
    lookupP k (applyControl f c).props = lookupP k f.props := by
  cases c with
  | mk name value =>
    cases value with
    | plain v =>
      simp only [controlKeys, List.flatMap_cons, List.flatMap_nil, List.append_nil,
        List.mem_singleton] at h
      simp only [applyControl, lookupP_setProp]
      have : ¬ name = k := fun e => h e.symm
      simp [this]
    | radio kvs =>
      simp only [controlKeys, List.flatMap_cons, List.flatMap_nil, List.append_nil] at h
      exact lookupP_foldl_setProp k kvs f.props h

theorem lookupP_applyControls (cfg : EditConfig) (f : Record) (k : String)
    (h : k ∉ controlKeys cfg.controls) :
    lookupP k (applyControls cfg f).props = lookupP k f.props := by
  rcases cfg with ⟨ln, ac, cs⟩
  simp only [applyControls]
  induction cs generalizing f with
  | nil => rfl
  | cons c rest ih =>
    simp only [controlKeys, List.flatMap_cons, List.mem_append] at h
    push_neg at h
    rw [List.foldl_cons]
    rw [ih (applyControl f c) ?hrest]
    · exact lookupP_applyControl f c k (by
        simpa only [controlKeys, List.flatMap_cons, List.flatMap_nil, List.append_nil]
          using h.1)
    · exact h.2

/-- An uploaded file that already names another layer and carries a
pre-assigned identity property on its single feature. -/
def uploadedWithId : RawGeojson :=
  ⟨"FeatureCollection", some "other_layer", none,
    [⟨[((0 : ℚ), (0 : ℚ))], [("feature_id", PVal.s "R1")]⟩]⟩

/-- C8 counterexample: the upload handler passes the file's features
through unmodified (it only overwrites `layer` and `action`), so a file
whose feature already carries the layer's configured identity property
(`feature_id`) yields a delta batch that does contain a pre-assigned record
identity — refuting the claim that every web-edit batch contains none. -/
theorem upload_batch_preassigned_identity_counterexample :
    (buildUploadBatch editCfg uploadedWithId).layer = "roads" ∧
    hasIdentityProp "feature_id" (buildUploadBatch editCfg uploadedWithId) = true ∧
    (buildUploadBatch editCfg uploadedWithId).features = uploadedWithId.features := by
  decide

/-- C8 (amended): every delta batch produced by the web-edit save and
upload handlers targets exactly one named layer — the handlers set the
batch's `layer` field to the single configured layer name, overwriting any
layer named inside an uploaded file — and the handlers themselves assign no
record identities and resolve no joins: the upload handler passes the
file's features through unmodified, and the save handler touches no
property key outside those written by the configured controls (so
identities or joins can appear in a batch only when already present in the
uploaded file or drawn features, not introduced by the handlers). -/
theorem web_edit_batch_layer_discipline
    (cfg : EditConfig) (g : RawGeojson) (fs : List Record) :
    (buildUploadBatch cfg g).layer = cfg.layerName ∧
    (buildSaveBatch cfg fs).layer = cfg.layerName ∧
    (buildUploadBatch cfg g).features = g.features ∧
    (buildSaveBatch cfg fs).features = fs.map (applyControls cfg) ∧
    (∀ f ∈ fs, ∀ k : String, k ∉ controlKeys cfg.controls →
      lookupP k ((applyControls cfg f).props) = lookupP k f.props) := by
  refine ⟨rfl, rfl, rfl, rfl, ?_⟩
  intro f _ k hk
  exact lookupP_applyControls cfg f k hk

/-- C8 witness: with a configured `name` control, the save batch targets
`roads` and the handler leaves the `feature_id` key of a drawn feature
exactly as drawn. -/
theorem web_edit_batch_layer_discipline_witness :
    (buildUploadBatch editCfg uploadedWithId).layer = "roads" ∧
    (buildSaveBatch editCfg drawnTwo).layer = "roads" ∧
    lookupP "feature_id" ((applyControls editCfg ⟨[], []⟩).props) =
      lookupP "feature_id" (Record.mk [] []).props := by
  have h := web_edit_batch_layer_discipline editCfg uploadedWithId [(⟨[], []⟩ : Record)]
  exact ⟨h.1, h.2.1, h.2.2.2.2 ⟨[], []⟩ (by decide) "feature_id" (by decide)⟩

/-! ## C6 — drain ordering, stability, and order-independence -/

theorem filter_ts_orderedInsert (t : ℚ) (d : DeltaRec) (l : List DeltaRec) :
    (List.orderedInsert (fun a b => tsOf a ≤ tsOf b) d l).filter
        (fun e => decide (tsOf e = t)) =
      if tsOf d = t then d :: l.filter (fun e => decide (tsOf e = t))
      else l.filter (fun e => decide (tsOf e = t)) := by
  induction l with
  | nil =>
    by_cases ht : tsOf d = t <;> simp [List.orderedInsert, List.filter_cons, ht]
  | cons b rest ih =>
    by_cases hle : tsOf d ≤ tsOf b
    · have hins : List.orderedInsert (fun a b => tsOf a ≤ tsOf b) d (b :: rest) =
          d :: b :: rest := by
        simp [List.orderedInsert, hle]
      rw [hins]
      by_cases ht : tsOf d = t <;> by_cases hbt : tsOf b = t <;>
        simp [List.filter_cons, ht, hbt]
    · have hins : List.orderedInsert (fun a b => tsOf a ≤ tsOf b) d (b :: rest) =
          b :: List.orderedInsert (fun a b => tsOf a ≤ tsOf b) d rest := by
        simp [List.orderedInsert, hle]
      rw [hins]
      by_cases ht : tsOf d = t
      · have hb : ¬ tsOf b = t := by
          have hlt : tsOf b < tsOf d := lt_of_not_le hle
          rw [ht] at hlt
          exact ne_of_lt hlt
        simp [List.filter_cons, hb, ih, ht]
      · by_cases hbt : tsOf b = t <;>
          simp [List.filter_cons, hbt, ih, ht]

theorem filter_ts_insertionSort (t : ℚ) (l : List DeltaRec) :
    (List.insertionSort (fun a b => tsOf a ≤ tsOf b) l).filter
        (fun e => decide (tsOf e = t)) =
      l.filter (fun e => decide (tsOf e = t)) := by
  induction l with
  | nil => rfl
  | cons d rest ih =>
    simp only [List.insertionSort, filter_ts_orderedInsert, ih]
    by_cases ht : tsOf d = t <;> simp [List.filter_cons, ht]

theorem drain_eq_of_perm_distinct (q1 q2 : List Delta)
    (hperm : (allRecords q1).Perm (allRecords q2))
    (hnodup : List.Pairwise (fun a b => tsOf a ≠ tsOf b) (allRecords q1)) :
    drain q1 = drain q2 := by
  have hsym : ∀ {x y : DeltaRec}, tsOf x ≠ tsOf y → tsOf y ≠ tsOf x :=
    fun h e => h e.symm
  have hn1 : (drain q1).Pairwise (fun a b => tsOf a ≠ tsOf b) :=
    ((List.perm_insertionSort _ _).pairwise_iff hsym).mpr hnodup
  have hn2 : (drain q2).Pairwise (fun a b => tsOf a ≠ tsOf b) :=
    ((List.perm_insertionSort _ _).pairwise_iff hsym).mpr
      ((hperm.pairwise_iff hsym).mp hnodup)
  have hs1 : (drain q1).Pairwise (fun a b => tsOf a < tsOf b) :=
    ((List.sorted_insertionSort _ _).and hn1).imp
      (fun h => lt_of_le_of_ne h.1 h.2)
  have hs2 : (drain q2).Pairwise (fun a b => tsOf a < tsOf b) :=
    ((List.sorted_insertionSort _ _).and hn2).imp
      (fun h => lt_of_le_of_ne h.1 h.2)
  have hperm' : (drain q1).Perm (drain q2) :=
    (List.perm_insertionSort _ _).trans
      (hperm.trans (List.perm_insertionSort _ _).symm)
  haveI : IsAntisymm DeltaRec (fun a b => tsOf a < tsOf b) :=
    ⟨fun a b h h' => absurd (lt_trans h h') (lt_irrefl _)⟩
  exact @List.eq_of_perm_of_sorted DeltaRec (fun a b => tsOf a < tsOf b) _ _ _
    hperm' hs1 hs2

/-- C6: for every pending set — tied timestamps included — `drain` yields
the pending records sorted by `annotation_timestamp` ascending, the sort is
stable (for every timestamp value the records with that timestamp appear in
their arrival order, so re-draining the same pending set reproduces the
same order), and `drain` is a permutation of the pending records (nothing
lost, nothing duplicated); moreover, when the timestamps are pairwise
distinct, two arrival orders of the same record set drain to the same
sequence and applying them yields an identical final layer state. -/
theorem drain_ordering_and_determinism
    (intersects : Geom → Geom → Bool) (cfg : LayerConfig)
    (q1 q2 : List Delta) (l : Layer) :
    List.Sorted (fun a b => tsOf a ≤ tsOf b) (drain q1) ∧
    (∀ t : ℚ, (drain q1).filter (fun e => decide (tsOf e = t)) =
      (allRecords q1).filter (fun e => decide (tsOf e = t))) ∧
    (drain q1).Perm (allRecords q1) ∧
    ((allRecords q1).Perm (allRecords q2) →
      List.Pairwise (fun a b => tsOf a ≠ tsOf b) (allRecords q1) →
      drain q1 = drain q2 ∧
      applyAll intersects cfg (drain q1) l = applyAll intersects cfg (drain q2) l) := by
  refine ⟨List.sorted_insertionSort _ _,
    fun t => filter_ts_insertionSort t (allRecords q1),
    List.perm_insertionSort _ _,
    fun hperm hnodup => ?_⟩
  have heq := drain_eq_of_perm_distinct q1 q2 hperm hnodup
  exact ⟨heq, by rw [heq]⟩

/-- A single-record delta batch with timestamp 1. -/
def deltaA : Delta :=
  ⟨[⟨[], [("annotation_timestamp", PVal.n 1), ("name", PVal.s "a")], none, none⟩]⟩

/-- A single-record delta batch with timestamp 2. -/
def deltaB : Delta :=
  ⟨[⟨[], [("annotation_timestamp", PVal.n 2), ("name", PVal.s "b")], none, none⟩]⟩

/-- A single-record delta batch sharing timestamp 1, arriving first. -/
def deltaTieA : Delta :=
  ⟨[⟨[], [("annotation_timestamp", PVal.n 1), ("name", PVal.s "tie-first")], none, none⟩]⟩

/-- A single-record delta batch sharing timestamp 1, arriving second. -/
def deltaTieB : Delta :=
  ⟨[⟨[], [("annotation_timestamp", PVal.n 1), ("name", PVal.s "tie-second")], none, none⟩]⟩

/-- C6 witness: a pending set with two records tied at timestamp 1 drains
sorted with the tied records kept in arrival order, and two arrival orders
of two distinct-timestamp deltas drain to the same sequence and produce the
same final layer state. -/
theorem drain_ordering_and_determinism_witness :
    List.Sorted (fun a b => tsOf a ≤ tsOf b) (drain [deltaTieA, deltaTieB]) ∧
    (drain [deltaTieA, deltaTieB]).filter (fun e => decide (tsOf e = 1)) =
      (allRecords [deltaTieA, deltaTieB]).filter (fun e => decide (tsOf e = 1)) ∧
    drain [deltaA, deltaB] = drain [deltaB, deltaA] ∧
    applyAll intersectsTrue roadsCfg (drain [deltaA, deltaB]) roadsLayer =
      applyAll intersectsTrue roadsCfg (drain [deltaB, deltaA]) roadsLayer := by
  have h1 := drain_ordering_and_determinism intersectsTrue roadsCfg
    [deltaTieA, deltaTieB] [deltaTieA, deltaTieB] roadsLayer
  have h2 := drain_ordering_and_determinism intersectsTrue roadsCfg
    [deltaA, deltaB] [deltaB, deltaA] roadsLayer
  have h3 := h2.2.2.2 (by decide) (by decide)
  exact ⟨h1.1, h1.2.1 1, h3.1, h3.2⟩

/-! ## C10 — `parseDegreesFormat` on JSON-form input -/

theorem takeDigits_append_self (l : List Char) :
    (takeDigits l).1 ++ (takeDigits l).2 = l := by
  induction l with
  | nil => rfl
  | cons c rest ih =>
    by_cases hc : isDigitChar c = true
    · simp [takeDigits, hc, ih]
    · simp [takeDigits, hc]

theorem mem_of_expectDigitsThen (mark : Char) (l : List Char) (v : ℕ × List Char)
    (h : expectDigitsThen mark l = some v) : mark ∈ l := by
  unfold expectDigitsThen at h
  by_cases he : (takeDigits l).1.isEmpty
  · simp [he] at h
  · simp only [he, Bool.false_eq_true, if_false] at h
    cases hp : (takeDigits l).2 with
    | nil => rw [hp] at h; exact absurd h (by simp)
    | cons c rest =>
      rw [hp] at h
      by_cases hc : c = mark
      · have hm : mark ∈ (takeDigits l).2 := by
          rw [hp, ← hc]; exact List.mem_cons_self c rest
        have hm2 : mark ∈ (takeDigits l).1 ++ (takeDigits l).2 :=
          List.mem_append.mpr (Or.inr hm)
        rwa [takeDigits_append_self] at hm2
      · simp [hc] at h

theorem mem_of_parseDMS (l : List Char) (v : Frac × List Char)
    (h : parseDMS l = some v) : '°' ∈ l := by
  unfold parseDMS at h
  cases hd : expectDigitsThen '°' l with
  | none => rw [hd] at h; exact absurd h (by simp)
  | some dp => exact mem_of_expectDigitsThen '°' l dp hd

theorem mem_of_tryDegreesAt (l : List Char) (v : Frac × Frac)
    (h : tryDegreesAt l = some v) : '°' ∈ l := by
  unfold tryDegreesAt at h
  cases hd : parseDMS l with
  | none => rw [hd] at h; exact absurd h (by simp)
  | some latp => exact mem_of_parseDMS l latp hd

theorem searchDegrees_eq_none (l : List Char) (h : '°' ∉ l) :
    searchDegrees l = none := by
  induction l with
  | nil => rfl
  | cons c rest ih =>
    have hrest : '°' ∉ rest := fun hm => h (List.mem_cons_of_mem c hm)
    cases ht : tryDegreesAt (c :: rest) with
    | some v => exact absurd (mem_of_tryDegreesAt (c :: rest) v ht) h
    | none => simp [searchDegrees, ht, ih hrest]

theorem trimChars_braced (xs : List Char) :
    trimChars ('\x7b' :: (xs ++ ['\x7d'])) = '\x7b' :: (xs ++ ['\x7d']) := by
  have h1 : isWsChar '\x7b' = false := by decide
  have h2 : isWsChar '\x7d' = false := by decide
  unfold trimChars
  rw [List.dropWhile_cons_of_neg (by simp [h1])]
  have hrev : ('\x7b' :: (xs ++ ['\x7d'])).reverse = '\x7d' :: (xs.reverse ++ ['\x7b']) := by
    simp
  rw [hrev, List.dropWhile_cons_of_neg (by simp [h2])]
  simp

theorem digitChar_lt_ten (d : ℕ) (h : d < 10) :
    isDigitChar (digitChar d) = true ∧ isWsChar (digitChar d) = false ∧
    digitChar d ≠ '°' ∧ digitChar d ≠ '"' ∧ digitChar d ≠ '.' ∧
    digitChar d ≠ ',' ∧ digitChar d ≠ '\x7d' ∧ digitChar d ≠ ':' := by
  interval_cases d <;> exact (by decide)

theorem serNum_no_degree (x : NumLit) (hx : x.Wf) : '°' ∉ serNum x := by
  rcases hx with ⟨-, hip, hfp⟩
  intro hm
  unfold serNum at hm
  rcases List.mem_append.mp hm with hm1 | hm2
  · rcases List.mem_append.mp hm1 with hs | hi
    · cases hneg : x.neg <;> rw [hneg] at hs <;> simp at hs
    · rcases List.mem_map.mp hi with ⟨d, hd, he⟩
      exact (digitChar_lt_ten d (hip d hd)).2.2.1 he
  · by_cases hfe : x.fp.isEmpty
    · rw [if_pos hfe] at hm2; simp at hm2
    · rw [if_neg hfe] at hm2
      rcases List.mem_cons.mp hm2 with he | hi
      · exact absurd he.symm (by decide)
      · rcases List.mem_map.mp hi with ⟨d, hd, he⟩
        exact (digitChar_lt_ten d (hfp d hd)).2.2.1 he

theorem takeWhile_append_of_all (p : Char → Bool) (xs ys : List Char)
    (h : ∀ c ∈ xs, p c = true) :
    (xs ++ ys).takeWhile p = xs ++ ys.takeWhile p := by
  induction xs with
  | nil => rfl
  | cons c rest ih =>
    have hc := h c (List.mem_cons_self c rest)
    simp only [List.cons_append, List.takeWhile_cons, hc, if_true]
    rw [ih (fun a ha => h a (List.mem_cons_of_mem c ha))]

theorem dropWhile_append_of_all (p : Char → Bool) (xs ys : List Char)
    (h : ∀ c ∈ xs, p c = true) :
    (xs ++ ys).dropWhile p = ys.dropWhile p := by
  induction xs with
  | nil => rfl
  | cons c rest ih =>
    have hc := h c (List.mem_cons_self c rest)
    simp only [List.cons_append, List.dropWhile_cons, hc, if_true]
    exact ih (fun a ha => h a (List.mem_cons_of_mem c ha))

theorem strmk_toList (s : String) : String.mk s.toList = s := rfl

theorem digitChar_ne_dash (d : ℕ) (h : d < 10) : digitChar d ≠ '-' := by
  interval_cases d <;> exact (by decide)

theorem takeDigits_ser (ds : List ℕ) (rest : List Char)
    (hds : ∀ d ∈ ds, d < 10)
    (hrest : ∀ c, rest.head? = some c → isDigitChar c = false) :
    takeDigits (numDigitsChars ds ++ rest) = (numDigitsChars ds, rest) := by
  induction ds with
  | nil =>
    cases rest with
    | nil => rfl
    | cons c rs =>
      have := hrest c rfl
      simp [numDigitsChars, takeDigits, this]
  | cons d ds' ih =>
    have hd := (digitChar_lt_ten d (hds d (List.mem_cons_self d ds'))).1
    have ihr := ih (fun e he => hds e (List.mem_cons_of_mem d he))
    simp only [numDigitsChars, List.map_cons, List.cons_append, takeDigits, hd, if_true,
      List.append_eq]
    simp only [numDigitsChars, List.append_eq] at ihr
    rw [ihr]


theorem skipWs_cons_nonws (c : Char) (l : List Char) (h : isWsChar c = false) :
    skipWsChars (c :: l) = c :: l := by
  show (c :: l).dropWhile isWsChar = c :: l
  rw [List.dropWhile_cons_of_neg (by simp [h])]

theorem skipWs_space (l : List Char) : skipWsChars (' ' :: l) = skipWsChars l := by
  show (' ' :: l).dropWhile isWsChar = l.dropWhile isWsChar
  rw [List.dropWhile_cons_of_pos (by decide)]

theorem parseMembers_space (fuel : ℕ) (l : List Char) :
    parseMembers fuel (' ' :: l) = parseMembers fuel l := by
  cases fuel with
  | zero => rfl
  | succ f => simp only [parseMembers, skipWs_space]

theorem skipWs_serNum (x : NumLit) (hx : x.Wf) (l : List Char) :
    skipWsChars (serNum x ++ l) = serNum x ++ l := by
  rcases hx with ⟨hipne, hip, -⟩
  obtain ⟨d, ds, hipe⟩ : ∃ d ds, x.ip = d :: ds := by
    cases h : x.ip with
    | nil => exact absurd h hipne
    | cons d ds => exact ⟨d, ds, rfl⟩
  cases hneg : x.neg with
  | true =>
    have h2 : serNum x ++ l = '-' :: (numDigitsChars x.ip ++
        ((if x.fp.isEmpty then [] else '.' :: numDigitsChars x.fp) ++ l)) := by
      simp [serNum, hneg]
    rw [h2]
    exact skipWs_cons_nonws _ _ (by decide)
  | false =>
    have h2 : serNum x ++ l = digitChar d :: (List.map digitChar ds ++
        ((if x.fp.isEmpty then [] else '.' :: numDigitsChars x.fp) ++ l)) := by
      simp [serNum, hneg, hipe, numDigitsChars]
    rw [h2]
    exact skipWs_cons_nonws _ _
      ((digitChar_lt_ten d (hip d (by rw [hipe]; exact List.mem_cons_self d ds))).2.1)

theorem length_le_serMembers (ms : List (String × SVal)) :
    ms.length ≤ (serMembers ms).length := by
  induction ms with
  | nil => simp [serMembers]
  | cons m rest ih =>
    by_cases hre : rest.isEmpty
    · have : rest = [] := List.isEmpty_iff.mp hre
      subst this
      simp [serMembers, serMember]
    · simp only [serMembers, if_neg hre, List.length_append, List.length_cons,
        serMember, List.length_append]
      simp only [List.length_cons] at ih ⊢
      omega


theorem parseJsonString_ser (k : String) (rest : List Char)
    (hk : ∀ c ∈ k.toList, ¬ c = '"') :
    parseJsonString ('"' :: (k.toList ++ '"' :: rest)) = some (k, rest) := by
  have hall : ∀ c ∈ k.toList, (!(c = '"')) = true := by
    intro c hc
    simp [hk c hc]
  unfold parseJsonString
  dsimp only
  rw [if_pos rfl, List.span_eq_take_drop]
  rw [takeWhile_append_of_all _ _ _ hall, dropWhile_append_of_all _ _ _ hall]
  simp [strmk_toList]

theorem serSVal_no_degree (v : SVal) (hv : v.Wf) : '°' ∉ serSVal v := by
  cases v with
  | num x => exact serNum_no_degree x hv
  | str s =>
    intro hm
    unfold serSVal at hm
    rcases List.mem_cons.mp hm with he | hi
    · exact absurd he.symm (by decide)
    · rcases List.mem_append.mp hi with hs | he
      · exact (hv '°' hs).2 rfl
      · simp at he

theorem serMember_no_degree (k : String) (v : SVal)
    (hk : ∀ c ∈ k.toList, ¬ c = '"' ∧ ¬ c = '°') (hv : v.Wf) :
    '°' ∉ serMember k v := by
  intro hm
  unfold serMember at hm
  rcases List.mem_cons.mp hm with he | hi
  · exact absurd he.symm (by decide)
  · rcases List.mem_append.mp hi with hkm | hrest
    · exact (hk '°' hkm).2 rfl
    · rcases List.mem_cons.mp hrest with he | hrest
      · exact absurd he.symm (by decide)
      · rcases List.mem_cons.mp hrest with he | hrest
        · exact absurd he.symm (by decide)
        · rcases List.mem_cons.mp hrest with he | hrest
          · exact absurd he.symm (by decide)
          · exact serSVal_no_degree v hv hrest

theorem serMembers_no_degree (ms : List (String × SVal))
    (hk : ∀ p ∈ ms, ∀ c ∈ p.1.toList, ¬ c = '"' ∧ ¬ c = '°')
    (hx : ∀ p ∈ ms, p.2.Wf) :
    '°' ∉ serMembers ms := by
  induction ms with
  | nil => simp [serMembers]
  | cons m rest ih =>
    intro hm
    unfold serMembers at hm
    rcases List.mem_append.mp hm with h1 | h2
    · exact serMember_no_degree m.1 m.2
        (hk m (List.mem_cons_self m rest)) (hx m (List.mem_cons_self m rest)) h1
    · by_cases hre : rest.isEmpty
      · rw [if_pos hre] at h2; simp at h2
      · rw [if_neg hre] at h2
        rcases List.mem_cons.mp h2 with he | h3
        · exact absurd he.symm (by decide)
        · rcases List.mem_cons.mp h3 with he | h4
          · exact absurd he.symm (by decide)
          · exact ih (fun p hp => hk p (List.mem_cons_of_mem m hp))
              (fun p hp => hx p (List.mem_cons_of_mem m hp)) h4

theorem serObj_no_degree (ms : List (String × SVal))
    (hk : ∀ p ∈ ms, ∀ c ∈ p.1.toList, ¬ c = '"' ∧ ¬ c = '°')
    (hx : ∀ p ∈ ms, p.2.Wf) :
    '°' ∉ serObj ms := by
  intro hm
  unfold serObj at hm
  rcases List.mem_cons.mp hm with he | hi
  · exact absurd he.symm (by decide)
  · rcases List.mem_append.mp hi with h1 | h2
    · exact serMembers_no_degree ms hk hx h1
    · simp at h2

theorem parseExponent_none (v : Frac) (l : List Char)
    (h : ∀ c, l.head? = some c → ¬ c = 'e' ∧ ¬ c = 'E') :
    parseExponent v l = (v, l) := by
  cases l with
  | nil => rfl
  | cons c r1 =>
    have hc := h c rfl
    unfold parseExponent
    dsimp only
    rw [if_neg (by simp [hc.1, hc.2])]

theorem parseJsonNumber_ser (x : NumLit) (hx : x.Wf) (rest : List Char)
    (hrest : ∀ c, rest.head? = some c →
      isDigitChar c = false ∧ ¬ c = '.' ∧ ¬ c = 'e' ∧ ¬ c = 'E') :
    parseJsonNumber (serNum x ++ rest) = some (numVal x, rest) := by
  rcases hx with ⟨hipne, hip, hfp⟩
  obtain ⟨d, ds, hipe⟩ : ∃ d ds, x.ip = d :: ds := by
    cases h : x.ip with
    | nil => exact absurd h hipne
    | cons d ds => exact ⟨d, ds, rfl⟩
  have hdm : ¬ digitChar d = '-' :=
    digitChar_ne_dash d (hip d (by rw [hipe]; exact List.mem_cons_self d ds))
  have hexp : ∀ v : Frac, parseExponent v rest = (v, rest) := fun v =>
    parseExponent_none v rest (fun c hc => ⟨(hrest c hc).2.2.1, (hrest c hc).2.2.2⟩)
  by_cases hfe : x.fp.isEmpty
  · -- no fractional part
    have hfnil : x.fp = [] := List.isEmpty_iff.mp hfe
    have hser : serNum x = (if x.neg then ['-'] else []) ++ numDigitsChars x.ip := by
      simp [serNum, hfe]
    have htake : takeDigits (numDigitsChars x.ip ++ rest) = (numDigitsChars x.ip, rest) :=
      takeDigits_ser x.ip rest hip (fun c hc => (hrest c hc).1)
    have hval : decimalValue x.neg (numDigitsChars x.ip) [] = numVal x := by
      rw [numVal, hfnil]
      rfl
    have hne : (numDigitsChars x.ip).isEmpty = false := by
      rw [hipe]; simp [numDigitsChars]
    cases hneg : x.neg with
    | true =>
      rw [hneg] at hval
      rw [hser, hneg]
      simp only [if_true, List.cons_append, List.nil_append]
      unfold parseJsonNumber
      dsimp only
      rw [if_pos rfl, htake, hne]
      simp only [Bool.false_eq_true, if_false]
      cases rest with
      | nil => rw [hval]
      | cons r rs =>
        have hr := (hrest r rfl).2.1
        dsimp only
        rw [if_neg hr, hexp, hval]
    | false =>
      rw [hneg] at hval
      rw [hser, hneg]
      simp only [Bool.false_eq_true, if_false, List.nil_append]
      rw [hipe]
      simp only [numDigitsChars, List.map_cons, List.cons_append]
      unfold parseJsonNumber
      dsimp only
      rw [if_neg hdm]
      have htake2 : takeDigits (digitChar d :: (List.map digitChar ds ++ rest)) =
          (digitChar d :: List.map digitChar ds, rest) := by
        have h2 := htake
        rw [hipe] at h2
        simpa [numDigitsChars] using h2
      rw [htake2]
      simp only [List.isEmpty_cons, Bool.false_eq_true, if_false]
      have hval2 : decimalValue false (digitChar d :: List.map digitChar ds) [] = numVal x := by
        rw [← hval, hipe]
        rfl
      cases rest with
      | nil => rw [hval2]
      | cons r rs =>
        have hr := (hrest r rfl).2.1
        dsimp only
        rw [if_neg hr, hexp, hval2]
  · -- with fractional part
    obtain ⟨e, es, hfpe⟩ : ∃ e es, x.fp = e :: es := by
      cases h : x.fp with
      | nil => rw [h] at hfe; exact absurd rfl hfe
      | cons e es => exact ⟨e, es, rfl⟩
    have hser : serNum x ++ rest = (if x.neg then ['-'] else []) ++
        (numDigitsChars x.ip ++ ('.' :: (numDigitsChars x.fp ++ rest))) := by
      simp [serNum, hfe]
    have hdothead : ∀ c, ('.' :: (numDigitsChars x.fp ++ rest)).head? = some c →
        isDigitChar c = false := by
      intro c hc
      rw [List.head?_cons, Option.some_inj] at hc
      rw [← hc]
      decide
    have htake : takeDigits (numDigitsChars x.ip ++ ('.' :: (numDigitsChars x.fp ++ rest))) =
        (numDigitsChars x.ip, '.' :: (numDigitsChars x.fp ++ rest)) :=
      takeDigits_ser x.ip _ hip hdothead
    have htakef : takeDigits (numDigitsChars x.fp ++ rest) = (numDigitsChars x.fp, rest) :=
      takeDigits_ser x.fp rest hfp (fun c hc => (hrest c hc).1)
    have hnef : (numDigitsChars x.fp).isEmpty = false := by
      rw [hfpe]; simp [numDigitsChars]
    have hval : decimalValue x.neg (numDigitsChars x.ip) (numDigitsChars x.fp) = numVal x := by
      rw [numVal]
    have hne : (numDigitsChars x.ip).isEmpty = false := by
      rw [hipe]; simp [numDigitsChars]
    cases hneg : x.neg with
    | true =>
      rw [hneg] at hval
      rw [hser, hneg]
      simp only [if_true, List.cons_append, List.nil_append]
      unfold parseJsonNumber
      dsimp only
      rw [if_pos rfl, htake, hne]
      simp only [Bool.false_eq_true, if_false]
      rw [if_true, htakef, hnef]
      simp only [Bool.false_eq_true, if_false]
      rw [hexp, hval]
    | false =>
      rw [hneg] at hval
      rw [hser, hneg]
      simp only [Bool.false_eq_true, if_false, List.nil_append]
      rw [hipe]
      simp only [numDigitsChars, List.map_cons, List.cons_append]
      unfold parseJsonNumber
      dsimp only
      rw [if_neg hdm]
      have htake2 : takeDigits (digitChar d :: (List.map digitChar ds ++
          ('.' :: (List.map digitChar x.fp ++ rest)))) =
          (digitChar d :: List.map digitChar ds, '.' :: (List.map digitChar x.fp ++ rest)) := by
        have h2 := htake
        rw [hipe] at h2
        simpa [numDigitsChars] using h2
      dsimp only
      rw [htake2]
      simp only [List.isEmpty_cons, Bool.false_eq_true, if_false]
      simp only [numDigitsChars] at htakef hnef
      rw [if_true, htakef, hnef]
      simp only [Bool.false_eq_true, if_false]
      have hval2 : decimalValue false (digitChar d :: List.map digitChar ds)
          (List.map digitChar x.fp) = numVal x := by
        rw [← hval, hipe]
        rfl
      rw [hexp, hval2]

theorem stripPrefixChars_ne (k : Char) (ks : List Char) (c : Char) (rest : List Char)
    (h : ¬ c = k) : stripPrefixChars (k :: ks) (c :: rest) = none := by
  unfold stripPrefixChars
  rw [if_neg h]

theorem digitChar_not_kw (d : ℕ) (h : d < 10) :
    ¬ digitChar d = 't' ∧ ¬ digitChar d = 'f' ∧ ¬ digitChar d = 'n' := by
  interval_cases d <;> exact (by decide)

theorem parseJsonValue_num (l : List Char) (c : Char) (r : List Char) (hl : l = c :: r)
    (hq : ¬ c = '"') (ht : ¬ c = 't') (hf : ¬ c = 'f') (hn : ¬ c = 'n')
    (v : Frac) (rest : List Char) (hnum : parseJsonNumber l = some (v, rest)) :
    parseJsonValue l = some (JValue.num v, rest) := by
  subst hl
  unfold parseJsonValue
  dsimp only
  rw [if_neg hq, stripPrefixChars_ne _ _ _ _ ht, stripPrefixChars_ne _ _ _ _ hf,
    stripPrefixChars_ne _ _ _ _ hn, hnum]

theorem parseJsonValue_str (k : String) (rest : List Char)
    (hk : ∀ c ∈ k.toList, ¬ c = '"') :
    parseJsonValue ('"' :: (k.toList ++ '"' :: rest)) = some (JValue.str k, rest) := by
  unfold parseJsonValue
  dsimp only
  rw [if_pos rfl, parseJsonString_ser k rest hk]

theorem parseJsonValue_serNum (x : NumLit) (hx : x.Wf) (rest : List Char)
    (hrest : ∀ c, rest.head? = some c →
      isDigitChar c = false ∧ ¬ c = '.' ∧ ¬ c = 'e' ∧ ¬ c = 'E') :
    parseJsonValue (serNum x ++ rest) = some (JValue.num (numVal x), rest) := by
  have hnum := parseJsonNumber_ser x hx rest hrest
  obtain ⟨d, ds, hipe⟩ : ∃ d ds, x.ip = d :: ds := by
    cases h : x.ip with
    | nil => exact absurd h hx.1
    | cons d ds => exact ⟨d, ds, rfl⟩
  have hd10 := hx.2.1 d (by rw [hipe]; exact List.mem_cons_self d ds)
  cases hneg : x.neg with
  | true =>
    have h2 : serNum x ++ rest = '-' :: (numDigitsChars x.ip ++
        ((if x.fp.isEmpty then [] else '.' :: numDigitsChars x.fp) ++ rest)) := by
      simp [serNum, hneg]
    exact parseJsonValue_num _ _ _ h2 (by decide) (by decide) (by decide) (by decide)
      _ _ hnum
  | false =>
    have h2 : serNum x ++ rest = digitChar d :: (List.map digitChar ds ++
        ((if x.fp.isEmpty then [] else '.' :: numDigitsChars x.fp) ++ rest)) := by
      simp [serNum, hneg, hipe, numDigitsChars]
    exact parseJsonValue_num _ _ _ h2 (digitChar_lt_ten d hd10).2.2.2.1
      (digitChar_not_kw d hd10).1 (digitChar_not_kw d hd10).2.1
      (digitChar_not_kw d hd10).2.2 _ _ hnum

theorem parseJsonValue_serSVal (v : SVal) (hv : v.Wf) (rest : List Char)
    (hrest : ∀ c, rest.head? = some c →
      isDigitChar c = false ∧ ¬ c = '.' ∧ ¬ c = 'e' ∧ ¬ c = 'E') :
    parseJsonValue (serSVal v ++ rest) = some (svalJ v, rest) := by
  cases v with
  | num x => exact parseJsonValue_serNum x hv rest hrest
  | str s =>
    show parseJsonValue ('"' :: (s.toList ++ ['"']) ++ rest) = some (JValue.str s, rest)
    have h2 : '"' :: (s.toList ++ ['"']) ++ rest = '"' :: (s.toList ++ '"' :: rest) := by
      simp
    rw [h2]
    exact parseJsonValue_str s rest (fun c hc => (hv c hc).1)

theorem skipWs_serSVal (v : SVal) (hv : v.Wf) (l : List Char) :
    skipWsChars (serSVal v ++ l) = serSVal v ++ l := by
  cases v with
  | num x => exact skipWs_serNum x hv l
  | str s =>
    show skipWsChars ('"' :: (s.toList ++ ['"']) ++ l) = '"' :: (s.toList ++ ['"']) ++ l
    rw [List.cons_append]
    exact skipWs_cons_nonws _ _ (by decide)

theorem parseMembers_ser (ms : List (String × SVal)) :
    ∀ fuel, ms.length < fuel →
    (∀ p ∈ ms, ∀ c ∈ p.1.toList, ¬ c = '"' ∧ ¬ c = '°') →
    (∀ p ∈ ms, p.2.Wf) →
    ms ≠ [] →
    parseMembers fuel (serMembers ms ++ ['\x7d']) =
      some (ms.map (fun p => (p.1, svalJ p.2)), []) := by
  induction ms with
  | nil => intro fuel _ _ _ hne; exact absurd rfl hne
  | cons m rest ih =>
    intro fuel hfuel hk hwf _
    cases fuel with
    | zero => omega
    | succ f =>
      have hkm := hk m (List.mem_cons_self m rest)
      have hwm := hwf m (List.mem_cons_self m rest)
      have hinput : serMembers (m :: rest) ++ ['\x7d'] =
          '"' :: ((m.1).toList ++ '"' :: ':' :: ' ' :: (serSVal m.2 ++
            ((if rest.isEmpty then [] else ',' :: ' ' :: serMembers rest) ++ ['\x7d']))) := by
        simp [serMembers, serMember, List.append_assoc]
      have hThead : ∀ c, ((if rest.isEmpty then [] else ',' :: ' ' :: serMembers rest) ++
          ['\x7d']).head? = some c →
          isDigitChar c = false ∧ ¬ c = '.' ∧ ¬ c = 'e' ∧ ¬ c = 'E' := by
        intro c hc
        by_cases hre : rest.isEmpty
        · rw [if_pos hre, List.nil_append, List.head?_cons, Option.some_inj] at hc
          rw [← hc]
          exact ⟨by decide, by decide, by decide, by decide⟩
        · rw [if_neg hre, List.cons_append, List.head?_cons, Option.some_inj] at hc
          rw [← hc]
          exact ⟨by decide, by decide, by decide, by decide⟩
      rw [hinput]
      unfold parseMembers
      rw [skipWs_cons_nonws _ _ (by decide)]
      rw [parseJsonString_ser m.1 _ (fun c hc => (hkm c hc).1)]
      dsimp only
      rw [skipWs_cons_nonws _ _ (by decide)]
      dsimp only
      rw [if_pos rfl]
      have hsp : skipWsChars (' ' :: (serSVal m.2 ++
          ((if rest.isEmpty then [] else ',' :: ' ' :: serMembers rest) ++ ['\x7d']))) =
          serSVal m.2 ++ ((if rest.isEmpty then [] else ',' :: ' ' :: serMembers rest) ++
            ['\x7d']) := by
        rw [skipWs_space, skipWs_serSVal m.2 hwm]
      rw [hsp, parseJsonValue_serSVal m.2 hwm _ hThead]
      dsimp only
      by_cases hre : rest.isEmpty
      · have hrnil : rest = [] := List.isEmpty_iff.mp hre
        subst hrnil
        simp only [List.isEmpty_nil, if_true, List.nil_append]
        rw [skipWs_cons_nonws _ _ (by decide)]
        dsimp only
        rw [if_neg (by decide : ¬ ('\x7d' = ','))]
        rw [if_pos rfl]
        simp
      · have hrne : rest ≠ [] := fun e => hre (by simp [e])
        rw [if_neg hre]
        simp only [List.cons_append]
        rw [skipWs_cons_nonws _ _ (by decide)]
        dsimp only
        rw [if_pos rfl]
        have hrec : parseMembers f (' ' :: (serMembers rest ++ ['\x7d'])) =
            some (rest.map (fun p => (p.1, svalJ p.2)), []) := by
          rw [parseMembers_space]
          refine ih f ?_ (fun p hp => hk p (List.mem_cons_of_mem m hp))
            (fun p hp => hwf p (List.mem_cons_of_mem m hp)) hrne
          simp only [List.length_cons] at hfuel
          omega
        rw [hrec]
        simp

theorem parseJsonObj_ser (ms : List (String × SVal))
    (hk : ∀ p ∈ ms, ∀ c ∈ p.1.toList, ¬ c = '"' ∧ ¬ c = '°')
    (hwf : ∀ p ∈ ms, p.2.Wf)
    (hne : ms ≠ []) :
    parseJsonObj (serObj ms) = some (ms.map (fun p => (p.1, svalJ p.2))) := by
  obtain ⟨m, rest, hmse⟩ : ∃ m rest, ms = m :: rest := by
    cases h : ms with
    | nil => exact absurd h hne
    | cons m rest => exact ⟨m, rest, rfl⟩
  have hhead : ∃ tail, serMembers ms ++ ['\x7d'] = '"' :: tail := by
    rw [hmse]
    refine ⟨(m.1).toList ++ '"' :: ':' :: ' ' :: (serSVal m.2 ++
      ((if rest.isEmpty then [] else ',' :: ' ' :: serMembers rest) ++ ['\x7d'])), ?_⟩
    simp [serMembers, serMember, List.append_assoc]
  rcases hhead with ⟨tail, htail⟩
  have hfuel : ms.length < (serObj ms).length + 1 := by
    have h1 := length_le_serMembers ms
    simp only [serObj, List.length_cons, List.length_append]
    omega
  unfold parseJsonObj
  have hobj : serObj ms = '\x7b' :: (serMembers ms ++ ['\x7d']) := rfl
  rw [hobj, skipWs_cons_nonws _ _ (by decide)]
  dsimp only
  rw [if_pos rfl, htail, skipWs_cons_nonws _ _ (by decide)]
  dsimp only
  rw [if_neg (by decide : ¬ ('"' = '\x7d'))]
  rw [← htail, parseMembers_ser ms _ (by simpa [hobj] using hfuel) hk hwf hne]
  dsimp only
  rw [show skipWsChars [] = [] from rfl]
  rfl

theorem jLookup_not_mem (k : String) (l : List (String × JValue))
    (h : k ∉ l.map Prod.fst) : jLookup k l = none := by
  induction l with
  | nil => rfl
  | cons p rest ih =>
    simp only [List.map_cons, List.mem_cons] at h
    push_neg at h
    have h1 : ¬ p.1 = k := fun e => h.1 e.symm
    simp only [jLookup, ih h.2, h1, if_false]

theorem jLookup_map_sval (k : String) (v : SVal) (ms : List (String × SVal))
    (hmem : (k, v) ∈ ms) (hnodup : (ms.map Prod.fst).Nodup) :
    jLookup k (ms.map (fun p => (p.1, svalJ p.2))) = some (svalJ v) := by
  induction ms with
  | nil => cases hmem
  | cons m rest ih =>
    simp only [List.map_cons, List.nodup_cons] at hnodup
    rcases List.mem_cons.mp hmem with he | hm
    · have hk1 : m.1 = k := by rw [← he]
      have hx1 : m.2 = v := by rw [← he]
      have hnone : jLookup k (rest.map (fun p => (p.1, svalJ p.2))) = none := by
        apply jLookup_not_mem
        have h3 : (rest.map (fun p => (p.1, svalJ p.2))).map Prod.fst =
            rest.map Prod.fst := by
          simp
        rw [h3, ← hk1]
        exact hnodup.1
      simp only [List.map_cons, jLookup, hnone]
      rw [if_pos hk1, hx1]
    · have h2 := ih hm hnodup.2
      simp only [List.map_cons, jLookup, h2]

instance (x : NumLit) : Decidable x.Wf :=
  inferInstanceAs (Decidable (x.ip ≠ [] ∧ (∀ d ∈ x.ip, d < 10) ∧ (∀ d ∈ x.fp, d < 10)))

instance : (v : SVal) → Decidable v.Wf
  | SVal.num x => inferInstanceAs (Decidable x.Wf)
  | SVal.str s => inferInstanceAs (Decidable (∀ c ∈ s.toList, ¬ c = '"' ∧ ¬ c = '°'))

/-- The JSON-form coordinate input with a zero latitude. -/
def zeroJsonInput : String := "\x7b\"latitude\": 0, \"longitude\": -122.4194\x7d"

/-- A JSON object with nonzero numeric latitude and longitude that also
carries a degrees-format fragment inside a string member. -/
def degreesNoteInput : String :=
  "\x7b\"latitude\": 1.5, \"longitude\": 2.5, \"note\": \"40°14′18″ N 123°57′39″ W\"\x7d"

/-- A JSON coordinate input whose latitude uses an exponent numeral. -/
def expJsonInput : String := "\x7b\"latitude\": 1e2, \"longitude\": -0.5\x7d"

theorem parseDegreesFormat_json (input : List Char) (obj : List (String × JValue))
    (la lo : JValue)
    (hsd : searchDegrees (trimChars input) = none)
    (hobj : parseJsonObj (trimChars input) = some obj)
    (hla : jLookup "latitude" obj = some la)
    (hlo : jLookup "longitude" obj = some lo)
    (hlat : la.truthy = true) (hlot : lo.truthy = true) :
    parseDegreesFormat input = some (la, lo) := by
  unfold parseDegreesFormat
  dsimp only
  rw [hsd]
  dsimp only
  rw [hobj]
  dsimp only
  rw [hla, hlo]
  dsimp only
  rw [hlat, hlot]
  simp

/-- The latitude numeral 37.7749 of the serialized witness object. -/
def witnessLat : NumLit := ⟨false, [3, 7], [7, 7, 4, 9]⟩

/-- The longitude numeral -122.4194 of the serialized witness object. -/
def witnessLng : NumLit := ⟨true, [1, 2, 2], [4, 1, 9, 4]⟩

/-- The serialized witness object: `latitude`/`longitude` numerals and a
string member. -/
def witnessObj : List (String × SVal) :=
  [("latitude", SVal.num witnessLat), ("longitude", SVal.num witnessLng),
    ("note", SVal.str "Main St")]

